import Mathlib

/-!
Verification of the stoneberry prefix-scan orchestrator.

Source files embedded:
- `PrefixScan.ts` (the orchestrator class `PrefixScan`): its derived
  properties `sourceScan`, `blockScans`, `applyScans`, `fitsInWorkGroup`,
  `sourceSize`, `actualWorkgroupLength`, `shaders`, `result` are embedded
  as functions of a `PrefixScanConfig` record (the reactive fields of the
  class after `assignParams` applied the defaults).
- `ApplyScanBlocks.ts` (the apply stage): its constructor arguments and
  `actualWorkgroupLength` are embedded; the WGSL kernel behind
  `getApplyBlocksPipeline` is not in the sources and its element-level
  semantics are modelled from the spec (see `ApplyScanBlocksStage.result`).

The `WorkgroupScan` stage class and both WGSL kernels are not part of the
given sources; their per-block scan semantics are modelled from the spec
(section 4.1), as marked on each definition.

GPU buffers are modelled by the list of element values they hold together
with the byte width of one element; `GPUBuffer.size` (bytes) is then
`length * bytesPerElement`.  Opaque externals (GPUDevice, labels,
pipeline caches, debug buffers) are omitted; of the device only the limit
`maxComputeInvocationsPerWorkgroup` is kept, as `deviceMax`.
-/

namespace Stoneberry

/-! ## Generic list scan machinery -/

/-- Inclusive running combine of a list, seeded with an accumulator that is
itself combined into every output: `[f acc x0, f (f acc x0) x1, ...]`. -/
def iscanFrom {α : Type} (f : α → α → α) (acc : α) : List α → List α
  | [] => []
  | x :: xs => f acc x :: iscanFrom f (f acc x) xs

/-- Inclusive scan: `output[i] = combine of input[0..i]`, `output[0] = input[0]`. -/
def iscan {α : Type} (f : α → α → α) : List α → List α
  | [] => []
  | x :: xs => x :: iscanFrom f x xs

/-- Exclusive scan with a seed: `output[0] = seed`,
`output[i] = combine of seed and input[0..i-1]`; same length as the input. -/
def escan {α : Type} (f : α → α → α) (seed : α) : List α → List α
  | [] => []
  | l@(_ :: _) => seed :: iscanFrom f seed l.dropLast

/-- Combine of all elements of a list (the block total); identity on `[]`. -/
def total {α : Type} (f : α → α → α) (ident : α) : List α → α
  | [] => ident
  | x :: xs => xs.foldl f x

/-- Split a list into contiguous blocks of `L` elements; the final block may
be shorter.  Degenerate `L = 0` yields no blocks. -/
def chunk {α : Type} (L : Nat) (xs : List α) : List (List α) :=
  if h : xs.length = 0 ∨ L = 0 then [] else xs.take L :: chunk L (xs.drop L)
termination_by xs.length
decreasing_by
  simp only [not_or] at h
  have hx : 0 < xs.length := Nat.pos_of_ne_zero h.1
  have hL : 0 < L := Nat.pos_of_ne_zero h.2
  simp [List.length_drop]
  omega

/-! ## Data model -/

/-- The scan template: the associative combine operation, its identity value
and the byte width of one element (`ScanTemplate.ts` is not in the sources;
the record follows the spec's data model, section 3). -/
structure ScanTemplate (α : Type) where
  elementSize : Nat
  identity : α
  combine : α → α → α

/-- The default template `sumU32`: 32-bit unsigned wrapping sum. -/
def sumU32 : ScanTemplate Nat :=
  { elementSize := 4, identity := 0, combine := fun a b => (a + b) % 4294967296 }

/-- A device buffer, modelled by its element values and the byte width each
element was written with; `size` is the byte size the GPU reports. -/
structure GPUBufferModel (α : Type) where
  data : List α
  bytesPerElement : Nat

/-- Byte size of a buffer, as `GPUBuffer.size` reports it. -/
def GPUBufferModel.size {α : Type} (b : GPUBufferModel α) : Nat :=
  b.data.length * b.bytesPerElement

/-- Modelled from the spec: thimbleberry's `limitWorkgroupLength` helper is an
external collaborator (device capability clamp, spec sections 4.3 and 6);
the same logic appears verbatim in `ApplyScanBlocks.actualWorkgroupLength`
in the sources: an unset or zero ("falsy") requested length, or one above
the device maximum, becomes the device maximum. -/
def limitWorkgroupLength (deviceMax : Nat) (proposed : Option Nat) : Nat :=
  match proposed with
  | none => deviceMax
  | some p => if p = 0 ∨ deviceMax < p then deviceMax else p

/-- One `WorkgroupScan` stage, as constructed by the orchestrator (the
`WorkgroupScan` class itself is not in the sources; the fields are the
constructor arguments the orchestrator passes, with `exclusiveSmall = false`
and `initialValue = none` as the modelled defaults for omitted arguments,
per spec section 4.4: intermediate levels are always inclusive). -/
structure WorkgroupScanStage (α : Type) where
  deviceMax : Nat
  source : List α
  emitBlockSums : Bool
  exclusiveSmall : Bool
  initialValue : Option α
  template : ScanTemplate α
  workgroupLength : Option Nat

/-- The workgroup length a stage actually uses: the requested length clamped
by the device limit. -/
def WorkgroupScanStage.blockLen {α : Type} (s : WorkgroupScanStage α) : Nat :=
  limitWorkgroupLength s.deviceMax s.workgroupLength

/-- Modelled from the spec: the `WorkgroupScan` kernel's `prefixScan` output
(`WorkgroupScan.ts` and its WGSL are not in the sources).  Per spec section
4.1: each block of `blockLen` elements is scanned independently; in
exclusive mode the seed is the initial value or the template identity; in
inclusive mode the initial value is combined into the output only when the
stage consists of a unique block (the "unique top-level block" case). -/
def WorkgroupScanStage.prefixScan {α : Type} (s : WorkgroupScanStage α) : List α :=
  let f := s.template.combine
  let cs := chunk s.blockLen s.source
  if s.exclusiveSmall then
    (cs.map (escan f (s.initialValue.getD s.template.identity))).flatten
  else
    match s.initialValue, cs with
    | some v, [c] => iscanFrom f v c
    | _, _ => (cs.map (iscan f)).flatten

/-- Modelled from the spec: the `WorkgroupScan` kernel's `blockSums` output:
one inclusive total per block, regardless of the stage's own mode (spec
section 4.1). -/
def WorkgroupScanStage.blockSums {α : Type} (s : WorkgroupScanStage α) : List α :=
  (chunk s.blockLen s.source).map (total s.template.combine s.template.identity)

/-- One `ApplyScanBlocks` stage, as constructed by the orchestrator: the
fields are the constructor arguments from `ApplyScanBlocks.ts` plus the
`initialValue` the orchestrator also passes (it is not declared in
`ApplyScanBlocksArgs` but is passed at the construction site). -/
structure ApplyScanBlocksStage (α : Type) where
  deviceMax : Nat
  partialScan : List α
  blockSums : List α
  template : ScanTemplate α
  exclusiveLarge : Bool
  initialValue : Option α
  workgroupLength : Option Nat

/-- `ApplyScanBlocks.actualWorkgroupLength` (source lines 104-114): an unset
or zero proposed length, or one above `maxComputeInvocationsPerWorkgroup`,
becomes the device maximum. -/
def ApplyScanBlocksStage.actualWorkgroupLength {α : Type}
    (a : ApplyScanBlocksStage α) : Nat :=
  limitWorkgroupLength a.deviceMax a.workgroupLength

/-- Element-wise worker for the apply-blocks kernel: element at overall index
`i` belongs to block `b = i / L`; block 0 passes through, block `b ≥ 1` is
combined with `blockSums[b - 1]`. -/
def applyGo {α : Type} (f : α → α → α) (d : α) (L : Nat) (bs : List α) :
    Nat → List α → List α
  | _, [] => []
  | i, p :: ps =>
    (if i / L = 0 then p else f (bs.getD (i / L - 1) d) p) :: applyGo f d L bs (i + 1) ps

/-- Modelled from the spec: the apply-blocks WGSL kernel behind
`getApplyBlocksPipeline` (not in the sources).  Spec section 4.3 gives
`result[i] = combine(blockSums[block(i)], partialScan[i])` but immediately
requires `blockSums[j]` to be read as "the prefix up to but excluding this
block's own summary"; since the orchestrator feeds the higher level's
inclusive `prefixScan` in as `blockSums`, that caveat means block 0 passes
through and block `b ≥ 1` combines `blockSums[b - 1]`.  The stage's
`exclusiveLarge` and `initialValue` do not influence the output: in
`ApplyScanBlocks.ts` neither is bound into the pipeline (lines 70-79) nor
the bind group (lines 81-92). -/
def ApplyScanBlocksStage.result {α : Type} (a : ApplyScanBlocksStage α) : List α :=
  applyGo a.template.combine a.template.identity a.actualWorkgroupLength
    a.blockSums 0 a.partialScan

/-- Element-wise worker for the literal apply formula of spec section 4.3 /
claim C1, without the exclusive-by-block indexing caveat: every element,
block 0 included, is combined with `blockSums[i / L]`. -/
def applyGoLit {α : Type} (f : α → α → α) (d : α) (L : Nat) (bs : List α) :
    Nat → List α → List α
  | _, [] => []
  | i, p :: ps => f (bs.getD (i / L) d) p :: applyGoLit f d L bs (i + 1) ps

/-- The apply stage output under the literal claim formula
`result[i] = combine(blockSums[floor(i / blockLength)], partialScan[i])`,
kept alongside `ApplyScanBlocksStage.result` for comparison. -/
def ApplyScanBlocksStage.resultLitFormula {α : Type}
    (a : ApplyScanBlocksStage α) : List α :=
  applyGoLit a.template.combine a.template.identity a.actualWorkgroupLength
    a.blockSums 0 a.partialScan

/-- The reactive parameter fields of a `PrefixScan` instance (after
`assignParams` has applied the defaults), plus the device limit. -/
structure PrefixScanConfig (α : Type) where
  deviceMax : Nat
  src : GPUBufferModel α
  template : ScanTemplate α
  workgroupLength : Option Nat
  exclusive : Bool
  initialValue : Option α

/-- The raw `PrefixScanArgs` of the constructor, optional fields unset when
the caller omitted them (`device`, `label`, `pipelineCache` omitted as
opaque externals).  Fixed to `Nat` elements because the default template
`sumU32` is. -/
structure PrefixScanArgsModel where
  deviceMax : Nat
  src : GPUBufferModel Nat
  template : Option (ScanTemplate Nat)
  workgroupLength : Option Nat
  exclusive : Option Bool
  initialValue : Option Nat

/-- The `PrefixScan` constructor (source lines 73-76): `assignParams` merges
the arguments with the `defaults` object (template `sumU32`, exclusive
`false`, workgroupLength and initialValue undefined).  It performs no
validation and cannot fail. -/
def mkPrefixScan (a : PrefixScanArgsModel) : PrefixScanConfig Nat :=
  { deviceMax := a.deviceMax
    src := a.src
    template := a.template.getD sumU32
    workgroupLength := a.workgroupLength
    exclusive := a.exclusive.getD false
    initialValue := a.initialValue }

namespace PrefixScan

variable {α : Type}

/-- `PrefixScan.sourceSize` (source lines 154-156): `this.src.size`. -/
def sourceSize (cfg : PrefixScanConfig α) : Nat :=
  cfg.src.size

/-- The source element count as the orchestrator derives it (source lines
128 and 159): `sourceSize / Uint32Array.BYTES_PER_ELEMENT`, the divisor a
hard-coded 4 bytes. -/
def sourceElems (cfg : PrefixScanConfig α) : Nat :=
  sourceSize cfg / 4

/-- `PrefixScan.actualWorkgroupLength` (source lines 163-165):
`limitWorkgroupLength(this.device, this.workgroupLength)`. -/
def actualWorkgroupLength (cfg : PrefixScanConfig α) : Nat :=
  limitWorkgroupLength cfg.deviceMax cfg.workgroupLength

/-- `PrefixScan.fitsInWorkGroup` (source lines 158-161). -/
def fitsInWorkGroup (cfg : PrefixScanConfig α) : Bool :=
  decide (sourceElems cfg ≤ actualWorkgroupLength cfg)

/-- Spec reading of the gate, for comparison with `fitsInWorkGroup`: the
element count derived as byte size divided by the template's element size
(spec section 3: "size / elementSize"). -/
def fitsInWorkGroupSpecReading (cfg : PrefixScanConfig α) : Bool :=
  decide (sourceSize cfg / cfg.template.elementSize ≤ actualWorkgroupLength cfg)

/-- `PrefixScan.sourceScan` (source lines 110-125): the source-level
`WorkgroupScan`, with `emitBlockSums: true` unconditionally and
`exclusiveSmall = this.exclusive && this.fitsInWorkGroup`. -/
def sourceScan (cfg : PrefixScanConfig α) : WorkgroupScanStage α :=
  { deviceMax := cfg.deviceMax
    source := cfg.src.data
    emitBlockSums := true
    exclusiveSmall := cfg.exclusive && fitsInWorkGroup cfg
    initialValue := cfg.initialValue
    template := cfg.template
    workgroupLength := cfg.workgroupLength }

/-- The loop body of `PrefixScan.blockScans` (source lines 127-152):
`for (let elements = wl; elements < sourceElements; elements *= wl)` builds
one `WorkgroupScan` per level, `emitBlockSums = !last` with
`last = elements * wl >= sourceElements`, each level's `blockSums` the next
level's source.  The source loop diverges when `wl <= 1` (elements never
grows); the guard conjuncts `2 ≤ wl` and `1 ≤ elements` make the embedding
total by returning `[]` in exactly those divergent (unreachable) cases. -/
def blockScansAux (cfg : PrefixScanConfig α) (source : List α) (elements : Nat) :
    List (WorkgroupScanStage α) :=
  if h : elements < sourceElems cfg ∧ 2 ≤ actualWorkgroupLength cfg ∧ 1 ≤ elements then
    let last : Bool := decide (sourceElems cfg ≤ elements * actualWorkgroupLength cfg)
    let stg : WorkgroupScanStage α :=
      { deviceMax := cfg.deviceMax
        source := source
        emitBlockSums := !last
        exclusiveSmall := false
        initialValue := none
        template := cfg.template
        workgroupLength := cfg.workgroupLength }
    stg :: blockScansAux cfg stg.blockSums (elements * actualWorkgroupLength cfg)
  else []
termination_by sourceElems cfg - elements
decreasing_by
  obtain ⟨h1, h2, h3⟩ := h
  have : 2 * elements ≤ elements * actualWorkgroupLength cfg := by
    rw [Nat.mul_comm 2 elements]
    exact Nat.mul_le_mul_left elements h2
  omega

/-- `PrefixScan.blockScans` (source lines 127-152): the block-sum stage
chain, seeded with the source stage's `blockSums` and `elements = wl`. -/
def blockScans (cfg : PrefixScanConfig α) : List (WorkgroupScanStage α) :=
  blockScansAux cfg (sourceScan cfg).blockSums (actualWorkgroupLength cfg)

/-- One `ApplyScanBlocks` construction as `PrefixScan.applyScans` performs it
(source lines 181-192): `exclusiveLarge = this.exclusive`, `initialValue`
passed along, `workgroupLength = this.actualWorkgroupLength`. -/
def mkApplyStage (cfg : PrefixScanConfig α) (tp bsums : List α) :
    ApplyScanBlocksStage α :=
  { deviceMax := cfg.deviceMax
    partialScan := tp
    blockSums := bsums
    template := cfg.template
    exclusiveLarge := cfg.exclusive
    initialValue := cfg.initialValue
    workgroupLength := some (actualWorkgroupLength cfg) }

/-- The stitching loop of `PrefixScan.applyScans` (source lines 181-195):
walk the reversed block-scan chain, pairing each position with its target
partial-scan buffer; the running `blockSums` starts at the top level's
`prefixScan` and is replaced by each new stage's `result`.  Parameterised
by the stage output function `res` so that the pipeline can also be run
with the literal claim formula. -/
def applyChainWith (cfg : PrefixScanConfig α)
    (res : ApplyScanBlocksStage α → List α) :
    List (WorkgroupScanStage α × List α) → List α → List (ApplyScanBlocksStage α)
  | [], _ => []
  | (_, tp) :: rest, bsums =>
    let a := mkApplyStage cfg tp bsums
    a :: applyChainWith cfg res rest (res a)

/-- The target partial-scan buffers of `PrefixScan.applyScans` (source line
177): `[...blockPrefixesReverse.slice(1), this.sourceScan.prefixScan]`. -/
def targetPrefixes (cfg : PrefixScanConfig α) : List (List α) :=
  (((blockScans cfg).reverse.map WorkgroupScanStage.prefixScan).drop 1) ++
    [(sourceScan cfg).prefixScan]

/-- `PrefixScan.applyScans` (source lines 168-198), parameterised by the
apply-stage output function.  The initial running `blockSums` is
`this.blockScans.slice(-1)[0].prefixScan`; `slice(-1)[0]` on an empty chain
would throw in the source, modelled by the `getD []` fallback (claim C10
shows the chain is never empty here). -/
def applyScansWith (cfg : PrefixScanConfig α)
    (res : ApplyScanBlocksStage α → List α) : List (ApplyScanBlocksStage α) :=
  if fitsInWorkGroup cfg then []
  else
    applyChainWith cfg res ((blockScans cfg).reverse.zip (targetPrefixes cfg))
      ((((blockScans cfg).getLast?).map WorkgroupScanStage.prefixScan).getD [])

/-- `PrefixScan.applyScans` with the actual apply kernel. -/
def applyScans (cfg : PrefixScanConfig α) : List (ApplyScanBlocksStage α) :=
  applyScansWith cfg ApplyScanBlocksStage.result

/-- The apply chain rebuilt with the literal claim C1 formula in every apply
stage, for comparison. -/
def applyScansLit (cfg : PrefixScanConfig α) : List (ApplyScanBlocksStage α) :=
  applyScansWith cfg ApplyScanBlocksStage.resultLitFormula

/-- One encoded shader pass of `PrefixScan.shaders`. -/
inductive ShaderNode (α : Type) where
  | block (s : WorkgroupScanStage α)
  | applyB (a : ApplyScanBlocksStage α)

/-- The output buffers a shader pass writes (the block scan always owns a
`prefixScan` buffer; its `blockSums` buffer only counts as an output when
the stage was asked to emit summaries). -/
def ShaderNode.outputs {α : Type} : ShaderNode α → List (List α)
  | .block s => s.prefixScan :: (if s.emitBlockSums then [s.blockSums] else [])
  | .applyB a => [a.result]

/-- `PrefixScan.shaders` (source lines 106-108):
`[this.sourceScan, ...this.blockScans, ...this.applyScans]`, the order in
which `commands` encodes the passes (source lines 78-80). -/
def shadersList (cfg : PrefixScanConfig α) : List (ShaderNode α) :=
  ShaderNode.block (sourceScan cfg) ::
    ((blockScans cfg).map ShaderNode.block ++ (applyScans cfg).map ShaderNode.applyB)

/-- `PrefixScan.result` (source lines 98-104): the source stage's
`prefixScan` when the data fits in one workgroup, otherwise
`this.applyScans.slice(-1)[0].result`; `none` models the `slice(-1)[0]`
access throwing on an empty apply chain. -/
def result (cfg : PrefixScanConfig α) : Option (List α) :=
  if fitsInWorkGroup cfg then some (sourceScan cfg).prefixScan
  else ((applyScans cfg).getLast?).map ApplyScanBlocksStage.result

/-- `PrefixScan.result` rebuilt over the literal claim C1 formula. -/
def resultLit (cfg : PrefixScanConfig α) : Option (List α) :=
  if fitsInWorkGroup cfg then some (sourceScan cfg).prefixScan
  else ((applyScansLit cfg).getLast?).map ApplyScanBlocksStage.resultLitFormula

/-- Fold the apply corrections over a block-scan chain: the empty chain
resolves to the final target unchanged, and each chain stage's resolved
prefixes correct the next target below.  This is the denotation of the
apply chain used to relate the stitched stage list to the reference scan. -/
def chainApply (f : α → α → α) (d : α) (L : Nat) :
    List (WorkgroupScanStage α) → List α → List α
  | [], final => final
  | stg :: C, final => applyGo f d L (chainApply f d L C stg.prefixScan) 0 final

end PrefixScan

/-! ## Concrete configurations used as witnesses and counterexamples -/

/-- A plain (non-wrapping) sum template over `Nat`, 4-byte elements; its
combine is associative, as claim C1 requires of the caller's template. -/
def tplAdd : ScanTemplate Nat :=
  { elementSize := 4, identity := 0, combine := Nat.add }

/-- A template for 8-byte elements (e.g. a two-word struct), used to probe
the element-size derivation of the gate. -/
def tplWide : ScanTemplate Nat :=
  { elementSize := 8, identity := 0, combine := Nat.add }

/-- Four u32 elements, workgroup length 2: two chain levels are needed. -/
def cfgA : PrefixScanConfig Nat :=
  { deviceMax := 2, src := { data := [1, 2, 3, 4], bytesPerElement := 4 },
    template := tplAdd, workgroupLength := none, exclusive := false,
    initialValue := none }

/-- Eight u32 elements with workgroup length 2 (so 8 = 2 ^ 3), requested as
an exclusive scan with an initial value. -/
def cfgB : PrefixScanConfig Nat :=
  { deviceMax := 2, src := { data := [1, 2, 3, 4, 5, 6, 7, 8], bytesPerElement := 4 },
    template := tplAdd, workgroupLength := none, exclusive := true,
    initialValue := some 7 }

/-- Three u32 elements fitting in a single workgroup of length 4. -/
def cfgC : PrefixScanConfig Nat :=
  { deviceMax := 4, src := { data := [1, 2, 3], bytesPerElement := 4 },
    template := tplAdd, workgroupLength := none, exclusive := true,
    initialValue := none }

/-- Four 8-byte elements (32 bytes) on a device of maximum workgroup
length 4: 4 elements fit, but the byte count divided by 4 is 8. -/
def cfgWide : PrefixScanConfig Nat :=
  { deviceMax := 4, src := { data := [1, 2, 3, 4], bytesPerElement := 8 },
    template := tplWide, workgroupLength := none, exclusive := false,
    initialValue := none }

/-- An empty source buffer. -/
def cfgEmpty : PrefixScanConfig Nat :=
  { deviceMax := 4, src := { data := [], bytesPerElement := 4 },
    template := tplAdd, workgroupLength := none, exclusive := false,
    initialValue := none }

/-- Constructor arguments requesting `workgroupLength = 0` (a non-positive
block length) over three u32 elements. -/
def argsZeroLen : PrefixScanArgsModel :=
  { deviceMax := 4, src := { data := [1, 2, 3], bytesPerElement := 4 },
    template := some tplAdd, workgroupLength := some 0, exclusive := none,
    initialValue := none }

/-! ## Lemmas about the generic scan machinery -/

section ScanLemmas

variable {α : Type} (f : α → α → α)

theorem iscanFrom_append (xs ys : List α) (a : α) :
    iscanFrom f a (xs ++ ys) = iscanFrom f a xs ++ iscanFrom f (xs.foldl f a) ys := by
  induction xs generalizing a with
  | nil => simp [iscanFrom]
  | cons x xs ih => simp [iscanFrom, ih]

theorem foldl_assoc' (hf : ∀ a b c, f (f a b) c = f a (f b c)) :
    ∀ (xs : List α) (a b : α), xs.foldl f (f a b) = f a (xs.foldl f b) := by
  intro xs
  induction xs with
  | nil => simp
  | cons x xs ih => intro a b; simp only [List.foldl_cons, hf, ih]

theorem map_iscanFrom (hf : ∀ a b c, f (f a b) c = f a (f b c)) :
    ∀ (xs : List α) (a b : α), (iscanFrom f b xs).map (f a) = iscanFrom f (f a b) xs := by
  intro xs
  induction xs with
  | nil => simp [iscanFrom]
  | cons x xs ih => intro a b; simp only [iscanFrom, List.map_cons, ih, hf]

theorem map_iscan (hf : ∀ a b c, f (f a b) c = f a (f b c)) (a : α) (c : List α) :
    (iscan f c).map (f a) = iscanFrom f a c := by
  cases c with
  | nil => simp [iscan, iscanFrom]
  | cons x xs => simp only [iscan, iscanFrom, List.map_cons, map_iscanFrom f hf]

theorem iscan_append (d : α) (xs ys : List α) (hxs : xs ≠ []) :
    iscan f (xs ++ ys) = iscan f xs ++ iscanFrom f (total f d xs) ys := by
  cases xs with
  | nil => exact absurd rfl hxs
  | cons x xs =>
    simp only [iscan, List.cons_append, total, iscanFrom_append]

theorem f_total_eq_foldl (hf : ∀ a b c, f (f a b) c = f a (f b c))
    (d a x : α) (xs : List α) :
    f a (total f d (x :: xs)) = (x :: xs).foldl f a := by
  simp only [total, List.foldl_cons]
  exact (foldl_assoc' f hf xs a x).symm

theorem iscanFrom_getD (d : α) :
    ∀ (ts : List α) (a : α) (j : Nat), j < ts.length →
      (iscanFrom f a ts).getD j d = (ts.take (j + 1)).foldl f a := by
  intro ts
  induction ts with
  | nil => intro a j hj; simp at hj
  | cons t ts ih =>
    intro a j hj
    cases j with
    | zero => simp [iscanFrom]
    | succ j =>
      simp only [iscanFrom, List.getD_cons_succ, List.take_succ_cons, List.foldl_cons]
      exact ih (f a t) j (by simpa using hj)

end ScanLemmas

/-! ## Lemmas about `chunk` -/

section ChunkLemmas

variable {α : Type}

theorem chunk_nil (L : Nat) : chunk L ([] : List α) = [] := by
  rw [chunk]; simp

theorem chunk_cons (L : Nat) (hL : 1 ≤ L) (xs : List α) (hxs : xs ≠ []) :
    chunk L xs = xs.take L :: chunk L (xs.drop L) := by
  rw [chunk]
  rw [dif_neg]
  push_neg
  exact ⟨fun h => hxs (List.length_eq_zero.mp h), by omega⟩

theorem chunk_of_len_le (L : Nat) (xs : List α) (h1 : xs ≠ []) (h2 : xs.length ≤ L) :
    chunk L xs = [xs] := by
  have hL : 1 ≤ L := le_trans (List.length_pos.mpr h1) h2
  rw [chunk_cons L hL xs h1, List.take_of_length_le h2, List.drop_eq_nil_of_le h2, chunk_nil]

theorem chunk_ne_nil_of_mem (L : Nat) (xs : List α) :
    ∀ c ∈ chunk L xs, c ≠ [] := by
  intro c hc
  by_cases h0 : xs.length = 0 ∨ L = 0
  · rw [chunk, dif_pos h0] at hc
    simp at hc
  · push_neg at h0
    have hxs : xs ≠ [] := fun h => h0.1 (by simp [h])
    have hL : 1 ≤ L := by omega
    rw [chunk_cons L hL xs hxs] at hc
    rcases List.mem_cons.mp hc with h | h
    · subst h
      have hpos : 0 < (xs.take L).length := by
        rw [List.length_take]
        have h1 : 0 < xs.length := List.length_pos.mpr hxs
        omega
      exact List.length_pos.mp hpos
    · exact chunk_ne_nil_of_mem L (xs.drop L) c h
termination_by xs.length
decreasing_by
  have hx : 0 < xs.length := List.length_pos.mpr hxs
  simp [List.length_drop]
  omega

theorem flatten_chunk (L : Nat) (hL : 1 ≤ L) (xs : List α) :
    (chunk L xs).flatten = xs := by
  by_cases hxs : xs = []
  · simp [hxs, chunk_nil]
  · rw [chunk_cons L hL xs hxs, List.flatten_cons, flatten_chunk L hL (xs.drop L),
      List.take_append_drop]
termination_by xs.length
decreasing_by
  have hx : 0 < xs.length := List.length_pos.mpr hxs
  simp [List.length_drop]
  omega

theorem chunk_length (L : Nat) (hL : 1 ≤ L) (xs : List α) :
    (chunk L xs).length = (xs.length + L - 1) / L := by
  by_cases hxs : xs = []
  · subst hxs
    simp [chunk_nil, Nat.div_eq_of_lt (by omega : L - 1 < L)]
  · rw [chunk_cons L hL xs hxs]
    have hx : 1 ≤ xs.length := List.length_pos.mpr hxs
    by_cases hle : xs.length ≤ L
    · rw [List.drop_eq_nil_of_le hle, chunk_nil]
      have h2 : xs.length + L - 1 = xs.length - 1 + L := by omega
      rw [List.length_cons, List.length_nil, h2, Nat.add_div_right _ (by omega),
        Nat.div_eq_of_lt (by omega)]
    · push_neg at hle
      rw [List.length_cons, chunk_length L hL (xs.drop L), List.length_drop]
      have h1 : xs.length - L + L - 1 = xs.length - 1 - L + L := by omega
      have h2 : xs.length + L - 1 = xs.length - 1 - L + L + L := by omega
      rw [h1, h2, Nat.add_div_right _ (by omega), Nat.add_div_right _ (by omega),
        Nat.add_div_right _ (by omega)]
termination_by xs.length
decreasing_by
  have hx : 0 < xs.length := List.length_pos.mpr hxs
  simp [List.length_drop]
  omega

end ChunkLemmas

/-! ## Ceiling-division arithmetic -/

theorem ceilDiv_le_iff (n c L : Nat) (hL : 1 ≤ L) :
    (n + L - 1) / L ≤ c ↔ n ≤ L * c := by
  rw [← Nat.lt_succ_iff, Nat.div_lt_iff_lt_mul (show 0 < L by omega)]
  have hs : Nat.succ c * L = L * c + L := by
    rw [Nat.succ_mul, Nat.mul_comm c L]
  rw [hs]
  generalize L * c = m
  omega

theorem ceilDiv_compose (n e L : Nat) (he : 1 ≤ e) (hL : 1 ≤ L) :
    ((n + e - 1) / e + L - 1) / L = (n + e * L - 1) / (e * L) := by
  have heL : 1 ≤ e * L := Nat.mul_le_mul he hL
  apply Nat.le_antisymm
  · rw [ceilDiv_le_iff _ _ _ hL, ceilDiv_le_iff _ _ _ he]
    have h2 := (ceilDiv_le_iff n ((n + e * L - 1) / (e * L)) (e * L) heL).mp (le_refl _)
    calc n ≤ e * L * ((n + e * L - 1) / (e * L)) := h2
    _ = e * (L * ((n + e * L - 1) / (e * L))) := by ring
  · rw [ceilDiv_le_iff _ _ _ heL]
    have h1 := (ceilDiv_le_iff ((n + e - 1) / e) (((n + e - 1) / e + L - 1) / L) L hL).mp
      (le_refl _)
    have h2 := (ceilDiv_le_iff n (L * (((n + e - 1) / e + L - 1) / L)) e he).mp h1
    calc n ≤ e * (L * (((n + e - 1) / e + L - 1) / L)) := h2
    _ = e * L * (((n + e - 1) / e + L - 1) / L) := by ring

/-! ## Lengths of scans -/

theorem length_iscanFrom {α : Type} (f : α → α → α) :
    ∀ (xs : List α) (a : α), (iscanFrom f a xs).length = xs.length := by
  intro xs
  induction xs with
  | nil => intro a; rfl
  | cons x xs ih => intro a; simp [iscanFrom, ih]

theorem length_iscan {α : Type} (f : α → α → α) (xs : List α) :
    (iscan f xs).length = xs.length := by
  cases xs with
  | nil => rfl
  | cons x xs => simp [iscan, length_iscanFrom]

/-! ## Lemmas about the apply-blocks worker -/

section ApplyGoLemmas

variable {α : Type} (f : α → α → α) (d : α) (L : Nat) (bs : List α)

theorem applyGo_append (xs ys : List α) :
    ∀ i : Nat, applyGo f d L bs i (xs ++ ys) =
      applyGo f d L bs i xs ++ applyGo f d L bs (i + xs.length) ys := by
  induction xs with
  | nil => intro i; simp [applyGo]
  | cons x xs ih =>
    intro i
    simp only [List.cons_append, applyGo, List.append_eq]
    rw [ih (i + 1)]
    simp only [List.length_cons]
    have h : i + 1 + xs.length = i + (xs.length + 1) := by omega
    rw [h]

theorem applyGo_passthrough (hL : 1 ≤ L) :
    ∀ (xs : List α) (i : Nat), i + xs.length ≤ L → applyGo f d L bs i xs = xs := by
  intro xs
  induction xs with
  | nil => intro i _; rfl
  | cons x xs ih =>
    intro i hi
    simp only [List.length_cons] at hi
    have hiL : i / L = 0 := Nat.div_eq_of_lt (by omega)
    simp only [applyGo, hiL, if_pos rfl, ih (i + 1) (by omega)]
    simp

theorem applyGo_oneBlock (hL : 1 ≤ L) (k : Nat) (hk : 1 ≤ k) :
    ∀ (xs : List α) (t : Nat), t + xs.length ≤ L →
      applyGo f d L bs (k * L + t) xs = xs.map (f (bs.getD (k - 1) d)) := by
  intro xs
  induction xs with
  | nil => intro t _; rfl
  | cons x xs ih =>
    intro t ht
    simp only [List.length_cons] at ht
    have hdiv : (k * L + t) / L = k := by
      rw [Nat.mul_comm k L, Nat.mul_add_div (by omega : 0 < L),
        Nat.div_eq_of_lt (by omega : t < L)]
      omega
    simp only [applyGo, hdiv, if_neg (by omega : ¬k = 0), List.map_cons]
    have h1 : k * L + t + 1 = k * L + (t + 1) := by omega
    rw [h1, ih (t + 1) (by omega)]

end ApplyGoLemmas

/-! ## Single-level correctness of the apply-blocks correction -/

theorem applyGo_chunks {α : Type} (f : α → α → α) (d : α) (L : Nat) (hL : 1 ≤ L)
    (hf : ∀ a b c, f (f a b) c = f a (f b c)) :
    ∀ (rest : List α) (k : Nat) (acc : α) (bs : List α), 1 ≤ k →
      (∀ j, j < (chunk L rest).length →
        bs.getD (k - 1 + j) d = (((chunk L rest).map (total f d)).take j).foldl f acc) →
      applyGo f d L bs (k * L) (((chunk L rest).map (iscan f)).flatten) =
        iscanFrom f acc rest := by
  intro rest k acc bs hk H
  by_cases hrest : rest = []
  · subst hrest
    simp [chunk_nil, iscanFrom, applyGo]
  · rw [chunk_cons L hL rest hrest] at H ⊢
    have hcne : rest.take L ≠ [] := by
      apply List.length_pos.mp
      rw [List.length_take]
      have := List.length_pos.mpr hrest
      omega
    simp only [List.map_cons, List.flatten_cons]
    rw [applyGo_append]
    have hlen_iscan : (iscan f (rest.take L)).length = (rest.take L).length :=
      length_iscan f _
    have hfirst : applyGo f d L bs (k * L) (iscan f (rest.take L)) =
        (iscan f (rest.take L)).map (f (bs.getD (k - 1) d)) := by
      have h0 : (0 : Nat) + (iscan f (rest.take L)).length ≤ L := by
        rw [hlen_iscan, List.length_take]
        omega
      have := applyGo_oneBlock f d L bs hL k hk (iscan f (rest.take L)) 0 h0
      simpa using this
    have hacc : bs.getD (k - 1) d = acc := by
      have := H 0 (by simp)
      simpa using this
    rw [hfirst, hacc, map_iscan f hf acc _]
    by_cases hsmall : rest.length ≤ L
    · rw [List.take_of_length_le hsmall] at *
      rw [List.drop_eq_nil_of_le hsmall]
      simp [chunk_nil, applyGo]
    · push_neg at hsmall
      have htake : (rest.take L).length = L := by
        rw [List.length_take]; omega
      obtain ⟨y, ys, hc⟩ : ∃ y ys, rest.take L = y :: ys := by
        cases hcv : rest.take L with
        | nil => exact absurd hcv hcne
        | cons y ys => exact ⟨y, ys, rfl⟩
      have haccfold : f acc (total f d (rest.take L)) = (rest.take L).foldl f acc := by
        rw [hc]
        exact f_total_eq_foldl f hf d acc y ys
      have hrec := applyGo_chunks f d L hL hf (rest.drop L) (k + 1)
        (f acc (total f d (rest.take L))) bs (by omega)
        (by
          intro j hj
          have hH := H (j + 1) (by simp; omega)
          have hidx : k - 1 + (j + 1) = k + 1 - 1 + j := by omega
          rw [hidx] at hH
          rw [hH]
          simp only [List.map_cons, List.take_succ_cons, List.foldl_cons])
      rw [hlen_iscan, htake]
      have hstart : k * L + L = (k + 1) * L := by ring
      rw [hstart, hrec, haccfold, ← iscanFrom_append, List.take_append_drop]
termination_by rest => rest.length
decreasing_by
  have h1 : 0 < rest.length := List.length_pos.mpr hrest
  simp only [List.length_drop]
  omega

/-- Single-level correctness: correcting the in-block inclusive partial scans
with the inclusive scan of the block totals (read with the exclusive-by-block
shift of `applyGo`) yields the inclusive scan of the whole level. -/
theorem applyGo_correct {α : Type} (f : α → α → α) (d : α) (L : Nat) (hL : 1 ≤ L)
    (hf : ∀ a b c, f (f a b) c = f a (f b c)) (x : List α) :
    applyGo f d L (iscan f ((chunk L x).map (total f d))) 0
      (((chunk L x).map (iscan f)).flatten) = iscan f x := by
  by_cases hx : x = []
  · subst hx
    simp [chunk_nil, iscan, applyGo]
  · rw [chunk_cons L hL x hx]
    have hcne : x.take L ≠ [] := by
      apply List.length_pos.mp
      rw [List.length_take]
      have := List.length_pos.mpr hx
      omega
    simp only [List.map_cons, List.flatten_cons]
    rw [applyGo_append]
    have hlen_iscan : (iscan f (x.take L)).length = (x.take L).length := length_iscan f _
    have hfirst : applyGo f d L (iscan f (total f d (x.take L) ::
        (chunk L (x.drop L)).map (total f d))) 0 (iscan f (x.take L)) =
        iscan f (x.take L) := by
      apply applyGo_passthrough f d L _ hL
      rw [hlen_iscan, List.length_take]
      omega
    rw [hfirst]
    by_cases hsmall : x.length ≤ L
    · rw [List.take_of_length_le hsmall, List.drop_eq_nil_of_le hsmall]
      simp [chunk_nil, applyGo]
    · push_neg at hsmall
      have htake : (x.take L).length = L := by
        rw [List.length_take]; omega
      obtain ⟨y, ys, hc⟩ : ∃ y ys, x.take L = y :: ys := by
        cases hcv : x.take L with
        | nil => exact absurd hcv hcne
        | cons y ys => exact ⟨y, ys, rfl⟩
      have hbs : iscan f (total f d (x.take L) :: (chunk L (x.drop L)).map (total f d)) =
          total f d (x.take L) ::
            iscanFrom f (total f d (x.take L)) ((chunk L (x.drop L)).map (total f d)) := rfl
      have hrec := applyGo_chunks f d L hL hf (x.drop L) 1 (total f d (x.take L))
        (iscan f (total f d (x.take L) :: (chunk L (x.drop L)).map (total f d)))
        (le_refl 1)
        (by
          intro j hj
          rw [hbs]
          cases j with
          | zero => simp
          | succ j' =>
            have hidx : 1 - 1 + (j' + 1) = j' + 1 := by omega
            rw [hidx, List.getD_cons_succ]
            have hjlen : j' < ((chunk L (x.drop L)).map (total f d)).length := by
              rw [List.length_map]
              omega
            rw [iscanFrom_getD f d _ _ _ hjlen])
      rw [hlen_iscan, htake]
      have hstart : (0 : Nat) + L = 1 * L := by omega
      rw [hstart, hrec]
      rw [← iscan_append f d (x.take L) (x.drop L) hcne, List.take_append_drop]

/-! ## Unfolding lemmas for the stage chain -/

theorem prefixScan_inclusive {α : Type} (s : WorkgroupScanStage α)
    (h1 : s.exclusiveSmall = false) (h2 : s.initialValue = none) :
    s.prefixScan = ((chunk s.blockLen s.source).map (iscan s.template.combine)).flatten := by
  rw [WorkgroupScanStage.prefixScan, h1, h2]
  simp only [Bool.false_eq_true, if_false]

theorem blockSums_eq {α : Type} (s : WorkgroupScanStage α) :
    s.blockSums = (chunk s.blockLen s.source).map
      (total s.template.combine s.template.identity) := rfl

theorem prefixScan_multi {α : Type} (s : WorkgroupScanStage α)
    (h1 : s.exclusiveSmall = false)
    (h2 : 2 ≤ (chunk s.blockLen s.source).length) :
    s.prefixScan = ((chunk s.blockLen s.source).map (iscan s.template.combine)).flatten := by
  rw [WorkgroupScanStage.prefixScan, h1]
  simp only [Bool.false_eq_true, if_false]
  cases hiv : s.initialValue with
  | none => rfl
  | some v =>
    cases hcs : chunk s.blockLen s.source with
    | nil => rfl
    | cons c cs' =>
      cases cs' with
      | nil => rw [hcs] at h2; simp at h2
      | cons c2 cs'' => rfl

theorem prefixScan_nil_source {α : Type} (s : WorkgroupScanStage α)
    (h : s.source = []) : s.prefixScan = [] := by
  rw [WorkgroupScanStage.prefixScan, h, chunk_nil]
  cases hb : s.exclusiveSmall with
  | true => simp
  | false =>
    cases hiv : s.initialValue with
    | none => simp
    | some v => simp

namespace PrefixScan

variable {α : Type}

theorem blockScansAux_nil (cfg : PrefixScanConfig α) (s : List α) (e : Nat)
    (h : ¬(e < sourceElems cfg ∧ 2 ≤ actualWorkgroupLength cfg ∧ 1 ≤ e)) :
    blockScansAux cfg s e = [] := by
  rw [blockScansAux, dif_neg h]

theorem blockScansAux_cons (cfg : PrefixScanConfig α) (s : List α) (e : Nat)
    (h : e < sourceElems cfg ∧ 2 ≤ actualWorkgroupLength cfg ∧ 1 ≤ e) :
    blockScansAux cfg s e =
      { deviceMax := cfg.deviceMax
        source := s
        emitBlockSums := !(decide (sourceElems cfg ≤ e * actualWorkgroupLength cfg))
        exclusiveSmall := false
        initialValue := none
        template := cfg.template
        workgroupLength := cfg.workgroupLength } ::
      blockScansAux cfg
        (WorkgroupScanStage.blockSums
          { deviceMax := cfg.deviceMax
            source := s
            emitBlockSums := !(decide (sourceElems cfg ≤ e * actualWorkgroupLength cfg))
            exclusiveSmall := false
            initialValue := none
            template := cfg.template
            workgroupLength := cfg.workgroupLength })
        (e * actualWorkgroupLength cfg) := by
  rw [blockScansAux, dif_pos h]

/-- The constructed chain stage clamps its workgroup length exactly as the
orchestrator does. -/
theorem chainStage_blockLen (cfg : PrefixScanConfig α) (s : List α) (emit : Bool) :
    WorkgroupScanStage.blockLen
      { deviceMax := cfg.deviceMax
        source := s
        emitBlockSums := emit
        exclusiveSmall := false
        initialValue := none
        template := cfg.template
        workgroupLength := cfg.workgroupLength } = actualWorkgroupLength cfg := rfl

/-- Chain correctness: folding the apply corrections over the block-sum
stage chain built from level data `x` (whose partial scans are the final
target) resolves to the reference inclusive scan of `x`.  The hypothesis
relates `x`'s length to the loop counter `e` exactly as the source loop
maintains it. -/
theorem chain_correct (cfg : PrefixScanConfig α)
    (hf : ∀ a b c, cfg.template.combine (cfg.template.combine a b) c =
      cfg.template.combine a (cfg.template.combine b c))
    (hL : 2 ≤ actualWorkgroupLength cfg) (e : Nat) (x : List α)
    (he : 1 ≤ e) (hx : 1 ≤ x.length)
    (hinv : (x.length - 1) * e < sourceElems cfg * actualWorkgroupLength cfg) :
    chainApply cfg.template.combine cfg.template.identity (actualWorkgroupLength cfg)
      (blockScansAux cfg ((chunk (actualWorkgroupLength cfg) x).map
        (total cfg.template.combine cfg.template.identity)) e)
      (((chunk (actualWorkgroupLength cfg) x).map (iscan cfg.template.combine)).flatten) =
    iscan cfg.template.combine x := by
  have hL1 : 1 ≤ actualWorkgroupLength cfg := by omega
  have hxne : x ≠ [] := fun h => by simp [h] at hx
  by_cases hguard : e < sourceElems cfg
  · rw [blockScansAux_cons cfg _ e ⟨hguard, hL, he⟩]
    rw [chainApply]
    have hsrc_len : 1 ≤ ((chunk (actualWorkgroupLength cfg) x).map
        (total cfg.template.combine cfg.template.identity)).length := by
      rw [List.length_map, chunk_cons _ hL1 x hxne]
      simp
    have hq_le : ((chunk (actualWorkgroupLength cfg) x).length - 1) *
        actualWorkgroupLength cfg ≤ x.length - 1 := by
      rw [chunk_length _ hL1 x]
      have hq1 : 1 ≤ (x.length + actualWorkgroupLength cfg - 1) /
          actualWorkgroupLength cfg := by
        rw [Nat.one_le_div_iff (by omega)]
        omega
      have hqm : ((x.length + actualWorkgroupLength cfg - 1) /
          actualWorkgroupLength cfg) * actualWorkgroupLength cfg ≤
          x.length + actualWorkgroupLength cfg - 1 := Nat.div_mul_le_self _ _
      have hexp : ((x.length + actualWorkgroupLength cfg - 1) /
          actualWorkgroupLength cfg - 1) * actualWorkgroupLength cfg =
          ((x.length + actualWorkgroupLength cfg - 1) /
            actualWorkgroupLength cfg) * actualWorkgroupLength cfg -
            actualWorkgroupLength cfg := by
        rw [Nat.sub_mul, Nat.one_mul]
      omega
    have hinv' : (((chunk (actualWorkgroupLength cfg) x).map
        (total cfg.template.combine cfg.template.identity)).length - 1) *
        (e * actualWorkgroupLength cfg) <
        sourceElems cfg * actualWorkgroupLength cfg := by
      rw [List.length_map]
      calc ((chunk (actualWorkgroupLength cfg) x).length - 1) *
          (e * actualWorkgroupLength cfg)
          = ((chunk (actualWorkgroupLength cfg) x).length - 1) *
            actualWorkgroupLength cfg * e := by ring
      _ ≤ (x.length - 1) * e := Nat.mul_le_mul_right e hq_le
      _ < sourceElems cfg * actualWorkgroupLength cfg := hinv
    have hrec := chain_correct cfg hf hL (e * actualWorkgroupLength cfg)
      ((chunk (actualWorkgroupLength cfg) x).map
        (total cfg.template.combine cfg.template.identity))
      (by
        have := Nat.mul_le_mul he hL1
        omega)
      hsrc_len hinv'
    rw [blockSums_eq, chainStage_blockLen] at *
    rw [prefixScan_inclusive _ rfl rfl] at *
    rw [chainStage_blockLen]
    rw [hrec]
    exact applyGo_correct cfg.template.combine cfg.template.identity
      (actualWorkgroupLength cfg) hL1 hf x
  · rw [blockScansAux_nil cfg _ e (by omega)]
    rw [chainApply]
    have hNle : sourceElems cfg ≤ e := by omega
    have h1 : (x.length - 1) * e < actualWorkgroupLength cfg * e := by
      calc (x.length - 1) * e < sourceElems cfg * actualWorkgroupLength cfg := hinv
      _ ≤ e * actualWorkgroupLength cfg :=
        Nat.mul_le_mul_right (actualWorkgroupLength cfg) hNle
      _ = actualWorkgroupLength cfg * e := Nat.mul_comm _ _
    have hxL : x.length ≤ actualWorkgroupLength cfg := by
      have := Nat.lt_of_mul_lt_mul_right h1
      omega
    rw [chunk_of_len_le _ x hxne hxL]
    simp
termination_by sourceElems cfg - e
decreasing_by
  have h2e : 2 * e ≤ e * actualWorkgroupLength cfg := by
    rw [Nat.mul_comm 2 e]
    exact Nat.mul_le_mul_left e hL
  omega

theorem limitWorkgroupLength_idem (M : Nat) (r : Option Nat) :
    limitWorkgroupLength M (some (limitWorkgroupLength M r)) = limitWorkgroupLength M r := by
  unfold limitWorkgroupLength
  cases r with
  | none => simp
  | some p =>
    by_cases hp : p = 0 ∨ M < p
    · simp [hp]
    · simp [hp]

theorem mkApplyStage_result (cfg : PrefixScanConfig α) (tp b : List α) :
    (mkApplyStage cfg tp b).result =
      applyGo cfg.template.combine cfg.template.identity (actualWorkgroupLength cfg)
        b 0 tp := by
  unfold ApplyScanBlocksStage.result mkApplyStage ApplyScanBlocksStage.actualWorkgroupLength
  simp only [actualWorkgroupLength, limitWorkgroupLength_idem]

theorem applyChainWith_length (cfg : PrefixScanConfig α)
    (res : ApplyScanBlocksStage α → List α) :
    ∀ (pairs : List (WorkgroupScanStage α × List α)) (bs : List α),
      (applyChainWith cfg res pairs bs).length = pairs.length := by
  intro pairs
  induction pairs with
  | nil => intro bs; rfl
  | cons pr rest ih =>
    intro bs
    cases pr with
    | mk s tp => simp [applyChainWith, ih]

theorem getLast_cons_ne {β : Type} (a : β) (l : List β) (h : l ≠ []) :
    (a :: l).getLast? = l.getLast? := by
  cases l with
  | nil => exact absurd rfl h
  | cons b bs => exact List.getLast?_cons_cons

theorem applyChainWith_getLast (cfg : PrefixScanConfig α)
    (res : ApplyScanBlocksStage α → List α) :
    ∀ (pairs : List (WorkgroupScanStage α × List α)) (bs : List α), pairs ≠ [] →
      ((applyChainWith cfg res pairs bs).getLast?).map res =
        some (pairs.foldl (fun b pr => res (mkApplyStage cfg pr.2 b)) bs) := by
  intro pairs
  induction pairs with
  | nil => intro bs h; exact absurd rfl h
  | cons pr rest ih =>
    intro bs _
    cases pr with
    | mk s tp =>
      cases rest with
      | nil => simp [applyChainWith]
      | cons pr2 rest2 =>
        rw [applyChainWith]
        have hne : applyChainWith cfg res (pr2 :: rest2)
            (res (mkApplyStage cfg tp bs)) ≠ [] := by
          intro hcon
          have := congrArg List.length hcon
          rw [applyChainWith_length] at this
          simp at this
        rw [getLast_cons_ne _ _ hne]
        rw [ih _ (by simp)]
        simp [List.foldl_cons]

theorem drop_one_append {β : Type} (l l' : List β) (h : l ≠ []) :
    (l ++ l').drop 1 = l.drop 1 ++ l' := by
  cases l with
  | nil => exact absurd rfl h
  | cons a as => simp

theorem chainApply_eq_foldl (cfg : PrefixScanConfig α) :
    ∀ (C : List (WorkgroupScanStage α)) (final : List α), C ≠ [] →
      chainApply cfg.template.combine cfg.template.identity (actualWorkgroupLength cfg)
        C final =
      List.foldl
        (fun bs tp => applyGo cfg.template.combine cfg.template.identity
          (actualWorkgroupLength cfg) bs 0 tp)
        (((C.getLast?).map WorkgroupScanStage.prefixScan).getD [])
        (((C.reverse.map WorkgroupScanStage.prefixScan).drop 1) ++ [final]) := by
  intro C
  induction C with
  | nil => intro final h; exact absurd rfl h
  | cons stg C' ih =>
    intro final _
    cases C' with
    | nil => simp [chainApply]
    | cons stg2 C'' =>
      rw [chainApply, ih stg.prefixScan (by simp)]
      have hrev : (stg :: stg2 :: C'' : List (WorkgroupScanStage α)).reverse =
          (stg2 :: C'').reverse ++ [stg] := by simp
      have hlast : (stg :: stg2 :: C'' : List (WorkgroupScanStage α)).getLast? =
          (stg2 :: C'').getLast? := List.getLast?_cons_cons
      rw [hrev, hlast, List.map_append]
      simp only [List.map_cons, List.map_nil]
      rw [drop_one_append _ _ (by simp)]
      rw [List.foldl_append]
      simp only [List.foldl_cons, List.foldl_nil]
      rw [List.foldl_append, List.foldl_append]
      simp only [List.foldl_cons, List.foldl_nil]

theorem blockScans_ne_nil (cfg : PrefixScanConfig α)
    (hL : 2 ≤ actualWorkgroupLength cfg) (hfits : fitsInWorkGroup cfg = false) :
    blockScans cfg ≠ [] := by
  have hlt : actualWorkgroupLength cfg < sourceElems cfg := by
    have := of_decide_eq_false hfits
    omega
  rw [blockScans, blockScansAux_cons cfg _ _ ⟨hlt, hL, by omega⟩]
  simp

theorem targetPrefixes_length (cfg : PrefixScanConfig α)
    (hm : 1 ≤ (blockScans cfg).length) :
    (targetPrefixes cfg).length = (blockScans cfg).length := by
  rw [targetPrefixes, List.length_append, List.length_drop, List.length_map,
    List.length_reverse]
  have h1 : ([(sourceScan cfg).prefixScan] : List (List α)).length = 1 := rfl
  rw [h1]
  omega

theorem foldl_zip_snd {β γ δ : Type} (g : δ → γ → δ) :
    ∀ (A : List β) (B : List γ) (b : δ), B.length ≤ A.length →
      (A.zip B).foldl (fun acc pr => g acc pr.2) b = B.foldl g b := by
  intro A
  induction A with
  | nil =>
    intro B b h
    cases B with
    | nil => rfl
    | cons x xs => simp at h
  | cons a A ih =>
    intro B b h
    cases B with
    | nil => rfl
    | cons x xs =>
      simp only [List.zip_cons_cons, List.foldl_cons]
      exact ih xs (g b x) (by simpa using h)

/-- The stitched apply chain computes exactly the fold of corrections that
`chainApply` denotes: the pipeline result in the large case. -/
theorem result_eq_chainApply (cfg : PrefixScanConfig α)
    (hL : 2 ≤ actualWorkgroupLength cfg) (hfits : fitsInWorkGroup cfg = false) :
    result cfg = some (chainApply cfg.template.combine cfg.template.identity
      (actualWorkgroupLength cfg) (blockScans cfg) ((sourceScan cfg).prefixScan)) := by
  have hC : blockScans cfg ≠ [] := blockScans_ne_nil cfg hL hfits
  have hm : 1 ≤ (blockScans cfg).length := List.length_pos.mpr hC
  have hTlen : (targetPrefixes cfg).length = (blockScans cfg).length :=
    targetPrefixes_length cfg hm
  rw [result, if_neg (by simp [hfits])]
  rw [applyScans, applyScansWith, if_neg (by simp [hfits])]
  have hpairs : (blockScans cfg).reverse.zip (targetPrefixes cfg) ≠ [] := by
    have hzlen : ((blockScans cfg).reverse.zip (targetPrefixes cfg)).length =
        (blockScans cfg).length := by
      rw [List.length_zip, List.length_reverse, hTlen, Nat.min_self]
    intro hcon
    rw [hcon] at hzlen
    simp at hzlen
    omega
  rw [applyChainWith_getLast cfg _ _ _ hpairs]
  simp only [mkApplyStage_result]
  rw [foldl_zip_snd _ _ _ _ (by rw [hTlen, List.length_reverse])]
  rw [chainApply_eq_foldl cfg _ _ hC]
  rfl

theorem applyScans_ne_nil (cfg : PrefixScanConfig α)
    (hL : 2 ≤ actualWorkgroupLength cfg) (hfits : fitsInWorkGroup cfg = false) :
    applyScans cfg ≠ [] := by
  have hC : blockScans cfg ≠ [] := blockScans_ne_nil cfg hL hfits
  have hm : 1 ≤ (blockScans cfg).length := List.length_pos.mpr hC
  rw [applyScans, applyScansWith, if_neg (by simp [hfits])]
  intro hcon
  have hlen := congrArg List.length hcon
  rw [applyChainWith_length, List.length_zip, List.length_reverse,
    targetPrefixes_length cfg hm, Nat.min_self, List.length_nil] at hlen
  omega

theorem getLast_exists_of_ne_nil {β : Type} :
    ∀ (l : List β), l ≠ [] → ∃ a, l.getLast? = some a := by
  intro l
  induction l with
  | nil => intro h; exact absurd rfl h
  | cons x xs ih =>
    intro _
    cases xs with
    | nil => exact ⟨x, rfl⟩
    | cons y t =>
      obtain ⟨a, ha⟩ := ih (by simp)
      exact ⟨a, by rw [List.getLast?_cons_cons]; exact ha⟩

/-- Every chain stage is built inclusive: no exclusive flag and no initial
value are passed at the construction site (source lines 137-145). -/
theorem blockScansAux_mem_inclusive (cfg : PrefixScanConfig α) (s : List α) (e : Nat)
    (stg : WorkgroupScanStage α) (hmem : stg ∈ blockScansAux cfg s e) :
    stg.exclusiveSmall = false ∧ stg.initialValue = none := by
  by_cases h : e < sourceElems cfg ∧ 2 ≤ actualWorkgroupLength cfg ∧ 1 ≤ e
  · rw [blockScansAux_cons cfg s e h] at hmem
    rcases List.mem_cons.mp hmem with heq | hmem'
    · subst heq
      exact ⟨rfl, rfl⟩
    · exact blockScansAux_mem_inclusive cfg _ _ stg hmem'
  · rw [blockScansAux_nil cfg s e h] at hmem
    simp at hmem
termination_by sourceElems cfg - e
decreasing_by
  obtain ⟨h1, h2, h3⟩ := h
  have : 2 * e ≤ e * actualWorkgroupLength cfg := by
    rw [Nat.mul_comm 2 e]
    exact Nat.mul_le_mul_left e h2
  omega

theorem dropLast_cons_ne {β : Type} (a : β) (l : List β) (h : l ≠ []) :
    (a :: l).dropLast = a :: l.dropLast := by
  cases l with
  | nil => exact absurd rfl h
  | cons b bs => rfl

theorem blockScansAux_ne_nil_guard (cfg : PrefixScanConfig α) (s : List α) (e : Nat)
    (h : e < sourceElems cfg ∧ 2 ≤ actualWorkgroupLength cfg ∧ 1 ≤ e) :
    blockScansAux cfg s e ≠ [] := by
  rw [blockScansAux_cons cfg s e h]
  simp

/-- Unfolding the chain one level while tracking the ceiling-division length
invariant of the summaries that feed the next level. -/
theorem blockScansAux_cons_struct (cfg : PrefixScanConfig α) (s : List α) (e : Nat)
    (h : e < sourceElems cfg ∧ 2 ≤ actualWorkgroupLength cfg ∧ 1 ≤ e)
    (hlen : s.length = (sourceElems cfg + e - 1) / e) :
    ∃ s' : List α,
      blockScansAux cfg s e =
        { deviceMax := cfg.deviceMax
          source := s
          emitBlockSums := !(decide (sourceElems cfg ≤ e * actualWorkgroupLength cfg))
          exclusiveSmall := false
          initialValue := none
          template := cfg.template
          workgroupLength := cfg.workgroupLength } ::
        blockScansAux cfg s' (e * actualWorkgroupLength cfg) ∧
      s'.length = (sourceElems cfg + e * actualWorkgroupLength cfg - 1) /
        (e * actualWorkgroupLength cfg) := by
  refine ⟨_, blockScansAux_cons cfg s e h, ?_⟩
  rw [blockSums_eq, List.length_map, chainStage_blockLen,
    chunk_length _ (by omega) s, hlen]
  exact ceilDiv_compose _ _ _ (by omega) (by omega)

/-- Every chain stage before the last emits summaries and scans a level of
more than one workgroup of elements: the chain stops at the first level
whose element count is at most the workgroup length. -/
theorem blockScansAux_dropLast_spec (cfg : PrefixScanConfig α)
    (hL : 2 ≤ actualWorkgroupLength cfg) (e : Nat) (s : List α) (he : 1 ≤ e)
    (hlen : s.length = (sourceElems cfg + e - 1) / e) :
    ∀ stg ∈ (blockScansAux cfg s e).dropLast,
      stg.emitBlockSums = true ∧ actualWorkgroupLength cfg < stg.source.length := by
  intro stg hmem
  by_cases hguard : e < sourceElems cfg
  · obtain ⟨s', heq, hlen'⟩ := blockScansAux_cons_struct cfg s e ⟨hguard, hL, he⟩ hlen
    rw [heq] at hmem
    by_cases hlast : sourceElems cfg ≤ e * actualWorkgroupLength cfg
    · rw [blockScansAux_nil cfg s' _
        (fun hcon => absurd hcon.1 (Nat.not_lt.mpr hlast))] at hmem
      simp at hmem
    · push_neg at hlast
      have htne : blockScansAux cfg s' (e * actualWorkgroupLength cfg) ≠ [] :=
        blockScansAux_ne_nil_guard cfg s' _ ⟨hlast, hL, Nat.mul_pos (by omega) (by omega)⟩
      rw [dropLast_cons_ne _ _ htne] at hmem
      rcases List.mem_cons.mp hmem with heq2 | hmem'
      · subst heq2
        have hd : decide (sourceElems cfg ≤ e * actualWorkgroupLength cfg) = false :=
          decide_eq_false (Nat.not_le.mpr hlast)
        constructor
        · simp [hd]
        · have hlt : actualWorkgroupLength cfg < s.length := by
            rw [hlen]
            by_contra hcon
            push_neg at hcon
            have := (ceilDiv_le_iff (sourceElems cfg) (actualWorkgroupLength cfg) e
              (by omega)).mp hcon
            exact absurd this (Nat.not_le.mpr hlast)
          exact hlt
      · exact blockScansAux_dropLast_spec cfg hL (e * actualWorkgroupLength cfg) s'
          (Nat.mul_pos (by omega) (by omega)) hlen' stg hmem'
  · rw [blockScansAux_nil cfg s e (fun hcon => absurd hcon.1 hguard)] at hmem
    simp at hmem
termination_by sourceElems cfg - e
decreasing_by
  have h2e : 2 * e ≤ e * actualWorkgroupLength cfg := by
    rw [Nat.mul_comm 2 e]
    exact Nat.mul_le_mul_left e hL
  omega

/-- The last chain stage does not emit summaries and its level fits in one
workgroup. -/
theorem blockScansAux_getLast_spec (cfg : PrefixScanConfig α)
    (hL : 2 ≤ actualWorkgroupLength cfg) (e : Nat) (s : List α) (he : 1 ≤ e)
    (hlen : s.length = (sourceElems cfg + e - 1) / e) :
    ∀ stg, (blockScansAux cfg s e).getLast? = some stg →
      stg.emitBlockSums = false ∧ stg.source.length ≤ actualWorkgroupLength cfg := by
  intro stg hg
  by_cases hguard : e < sourceElems cfg
  · obtain ⟨s', heq, hlen'⟩ := blockScansAux_cons_struct cfg s e ⟨hguard, hL, he⟩ hlen
    rw [heq] at hg
    by_cases hlast : sourceElems cfg ≤ e * actualWorkgroupLength cfg
    · rw [blockScansAux_nil cfg s' _
        (fun hcon => absurd hcon.1 (Nat.not_lt.mpr hlast))] at hg
      rw [List.getLast?_singleton] at hg
      have hstg := (Option.some.inj hg).symm
      subst hstg
      constructor
      · simp [decide_eq_true hlast]
      · have hle2 : s.length ≤ actualWorkgroupLength cfg := by
          rw [hlen]
          exact (ceilDiv_le_iff (sourceElems cfg) (actualWorkgroupLength cfg) e
            (by omega)).mpr hlast
        exact hle2
    · push_neg at hlast
      have htne : blockScansAux cfg s' (e * actualWorkgroupLength cfg) ≠ [] :=
        blockScansAux_ne_nil_guard cfg s' _ ⟨hlast, hL, Nat.mul_pos (by omega) (by omega)⟩
      rw [getLast_cons_ne _ _ htne] at hg
      exact blockScansAux_getLast_spec cfg hL (e * actualWorkgroupLength cfg) s'
        (Nat.mul_pos (by omega) (by omega)) hlen' stg hg
  · rw [blockScansAux_nil cfg s e (fun hcon => absurd hcon.1 hguard)] at hg
    simp at hg
termination_by sourceElems cfg - e
decreasing_by
  have h2e : 2 * e ≤ e * actualWorkgroupLength cfg := by
    rw [Nat.mul_comm 2 e]
    exact Nat.mul_le_mul_left e hL
  omega

/-- The block-sum stage chain does not read the `exclusive` or
`initialValue` parameters: changing only those leaves the chain untouched. -/
theorem blockScansAux_param_congr (cfg : PrefixScanConfig α) (eb : Bool)
    (v' : Option α) (e : Nat) (s : List α) :
    blockScansAux { cfg with exclusive := eb, initialValue := v' } s e =
      blockScansAux cfg s e := by
  by_cases h : e < sourceElems cfg ∧ 2 ≤ actualWorkgroupLength cfg ∧ 1 ≤ e
  · rw [blockScansAux_cons cfg s e h,
      blockScansAux_cons { cfg with exclusive := eb, initialValue := v' } s e h]
    congr 1
    exact blockScansAux_param_congr cfg eb v' (e * actualWorkgroupLength cfg) _
  · rw [blockScansAux_nil cfg s e h,
      blockScansAux_nil { cfg with exclusive := eb, initialValue := v' } s e h]
termination_by sourceElems cfg - e
decreasing_by
  obtain ⟨h1, h2, h3⟩ := h
  have h2e : 2 * e ≤ e * actualWorkgroupLength cfg := by
    rw [Nat.mul_comm 2 e]
    exact Nat.mul_le_mul_left e h2
  omega

/-- Every stitched apply stage receives the caller's exclusive flag and
initial value (source lines 181-192). -/
theorem applyChainWith_mem_params (cfg : PrefixScanConfig α)
    (res : ApplyScanBlocksStage α → List α) :
    ∀ (pairs : List (WorkgroupScanStage α × List α)) (bs : List α),
      ∀ a ∈ applyChainWith cfg res pairs bs,
        a.exclusiveLarge = cfg.exclusive ∧ a.initialValue = cfg.initialValue := by
  intro pairs
  induction pairs with
  | nil => intro bs a ha; simp [applyChainWith] at ha
  | cons pr rest ih =>
    intro bs a ha
    cases pr with
    | mk s tp =>
      rw [applyChainWith] at ha
      rcases List.mem_cons.mp ha with heq | hmem'
      · subst heq
        exact ⟨rfl, rfl⟩
      · exact ih _ a hmem'

theorem zip_getElemQ {β γ : Type} :
    ∀ (A : List β) (B : List γ) (i : Nat) (pr : β × γ),
      (A.zip B)[i]? = some pr → A[i]? = some pr.1 ∧ B[i]? = some pr.2 := by
  intro A
  induction A with
  | nil => intro B i pr h; simp at h
  | cons a A ih =>
    intro B i pr h
    cases B with
    | nil => simp at h
    | cons b B =>
      rw [List.zip_cons_cons] at h
      cases i with
      | zero =>
        rw [List.getElem?_cons_zero] at h
        have hpr := Option.some.inj h
        rw [← hpr]
        exact ⟨by simp, by simp⟩
      | succ i =>
        rw [List.getElem?_cons_succ] at h
        obtain ⟨h1, h2⟩ := ih B i pr h
        exact ⟨by simpa using h1, by simpa using h2⟩

/-- Characterisation of the stitched apply chain's entries: the i-th stage's
partial-scan input is the i-th target, its running block sums are the
initial ones at position 0 and the previous stage's output afterwards. -/
theorem applyChainWith_getElemQ (cfg : PrefixScanConfig α)
    (res : ApplyScanBlocksStage α → List α) :
    ∀ (pairs : List (WorkgroupScanStage α × List α)) (bs : List α) (i : Nat)
      (a : ApplyScanBlocksStage α),
      (applyChainWith cfg res pairs bs)[i]? = some a →
      (∃ pr, pairs[i]? = some pr ∧ a.partialScan = pr.2) ∧
      ((i = 0 ∧ a.blockSums = bs) ∨
        (∃ i' a', i = i' + 1 ∧
          (applyChainWith cfg res pairs bs)[i']? = some a' ∧
          a.blockSums = res a')) := by
  intro pairs
  induction pairs with
  | nil => intro bs i a h; simp [applyChainWith] at h
  | cons pr0 rest ih =>
    intro bs i a h
    cases pr0 with
    | mk s0 tp0 =>
      rw [applyChainWith] at h
      cases i with
      | zero =>
        rw [List.getElem?_cons_zero] at h
        have ha := Option.some.inj h
        refine ⟨⟨(s0, tp0), by simp, ?_⟩, Or.inl ⟨rfl, ?_⟩⟩
        · rw [← ha]
          rfl
        · rw [← ha]
          rfl
      | succ i =>
        rw [List.getElem?_cons_succ] at h
        obtain ⟨⟨pr, hpr, hps⟩, hbs⟩ := ih _ i a h
        refine ⟨⟨pr, by rw [List.getElem?_cons_succ]; exact hpr, hps⟩, ?_⟩
        rcases hbs with ⟨hi0, hbs0⟩ | ⟨i', a', hi, hga, hres⟩
        · subst hi0
          refine Or.inr ⟨0, mkApplyStage cfg tp0 bs, rfl, ?_, hbs0⟩
          rw [applyChainWith, List.getElem?_cons_zero]
        · refine Or.inr ⟨i' + 1, a', by rw [hi], ?_, hres⟩
          rw [applyChainWith, List.getElem?_cons_succ]
          exact hga

theorem targetPrefixes_get_last (cfg : PrefixScanConfig α)
    (hm : 1 ≤ (blockScans cfg).length) :
    (targetPrefixes cfg)[(blockScans cfg).length - 1]? =
      some ((sourceScan cfg).prefixScan) := by
  rw [targetPrefixes]
  have hlen : (((blockScans cfg).reverse.map
      WorkgroupScanStage.prefixScan).drop 1).length =
      (blockScans cfg).length - 1 := by simp
  rw [List.getElem?_append_right (by omega)]
  rw [hlen]
  simp

theorem targetPrefixes_get_lt (cfg : PrefixScanConfig α) (i : Nat)
    (hi : i + 1 < (blockScans cfg).length) :
    (targetPrefixes cfg)[i]? =
      ((blockScans cfg)[(blockScans cfg).length - 2 - i]?).map
        WorkgroupScanStage.prefixScan := by
  rw [targetPrefixes]
  rw [List.getElem?_append_left (by simp; omega)]
  rw [List.getElem?_drop, List.getElem?_map]
  rw [List.getElem?_reverse (by omega)]
  have hidx : (blockScans cfg).length - 1 - (1 + i) =
      (blockScans cfg).length - 2 - i := by omega
  rw [hidx]

theorem shadersList_get_zero (cfg : PrefixScanConfig α) :
    (shadersList cfg)[0]? = some (ShaderNode.block (sourceScan cfg)) := by
  rw [shadersList, List.getElem?_cons_zero]

theorem shadersList_get_block (cfg : PrefixScanConfig α) (t : Nat)
    (ht : t < (blockScans cfg).length) :
    (shadersList cfg)[t + 1]? = ((blockScans cfg)[t]?).map ShaderNode.block := by
  rw [shadersList, List.getElem?_cons_succ,
    List.getElem?_append_left (by simp [ht]), List.getElem?_map]

theorem shadersList_get_apply (cfg : PrefixScanConfig α) (t : Nat) :
    (shadersList cfg)[(blockScans cfg).length + t + 1]? =
      ((applyScans cfg)[t]?).map ShaderNode.applyB := by
  rw [shadersList, List.getElem?_cons_succ,
    List.getElem?_append_right (by simp)]
  rw [List.getElem?_map]
  congr 2
  simp

end PrefixScan

open PrefixScan

/-! ## Claim C1 -/

/-- Claim C1 (amended): for a source of more than one workgroup of elements
and any associative combine, the full pipeline — source block scan, block-sum
stage chain, then the reverse apply chain, where each Apply-Block stage
passes block 0 through and computes
`result[i] = combine(blockSums[floor(i / blockLength) - 1], partialScan[i])`
for every later element (the exclusive-by-block indexing of spec 4.3) —
yields the reference sequential inclusive scan of the whole input. -/
theorem claim_C1_amended (cfg : PrefixScanConfig α)
    (hf : ∀ a b c, cfg.template.combine (cfg.template.combine a b) c =
      cfg.template.combine a (cfg.template.combine b c))
    (hbp : cfg.src.bytesPerElement = 4)
    (hL : 2 ≤ PrefixScan.actualWorkgroupLength cfg)
    (hfits : PrefixScan.fitsInWorkGroup cfg = false)
    (hexcl : cfg.exclusive = false) (hinit : cfg.initialValue = none) :
    PrefixScan.result cfg = some (iscan cfg.template.combine cfg.src.data) := by
  have hN : PrefixScan.sourceElems cfg = cfg.src.data.length := by
    rw [PrefixScan.sourceElems, PrefixScan.sourceSize, GPUBufferModel.size, hbp]
    exact Nat.mul_div_cancel _ (by omega)
  have hlt : PrefixScan.actualWorkgroupLength cfg < PrefixScan.sourceElems cfg := by
    have := of_decide_eq_false hfits
    omega
  have hdata : 1 ≤ cfg.src.data.length := by omega
  have hsrcPrefix : (PrefixScan.sourceScan cfg).prefixScan =
      ((chunk (PrefixScan.actualWorkgroupLength cfg) cfg.src.data).map
        (iscan cfg.template.combine)).flatten := by
    apply prefixScan_inclusive
    · show (cfg.exclusive && PrefixScan.fitsInWorkGroup cfg) = false
      rw [hfits, Bool.and_false]
    · exact hinit
  rw [PrefixScan.result_eq_chainApply cfg hL hfits, hsrcPrefix]
  rw [PrefixScan.blockScans]
  rw [show (PrefixScan.sourceScan cfg).blockSums =
    ((chunk (PrefixScan.actualWorkgroupLength cfg) cfg.src.data).map
      (total cfg.template.combine cfg.template.identity)) from rfl]
  rw [PrefixScan.chain_correct cfg hf hL (PrefixScan.actualWorkgroupLength cfg)
    cfg.src.data (by omega) hdata
    (by
      rw [hN]
      exact (Nat.mul_lt_mul_right
        (show 0 < PrefixScan.actualWorkgroupLength cfg by omega)).mpr
        (show cfg.src.data.length - 1 < cfg.src.data.length by omega))]

/-- Claim C1 as stated is false: running the pipeline with every Apply-Block
stage computing the literal formula
`result[i] = combine(blockSums[floor(i / blockLength)], partialScan[i])`
on the source `[1, 2, 3, 4]` with block length 2 and ordinary sum yields
`[4, 6, 13, 17]`, not the reference sequential scan `[1, 3, 6, 10]`. -/
theorem claim_C1_counterexample :
    PrefixScan.resultLit cfgA ≠ some (iscan cfgA.template.combine cfgA.src.data) := by
  have h1 : PrefixScan.resultLit cfgA = some [4, 6, 13, 17] := by
    simp [PrefixScan.resultLit, PrefixScan.applyScansLit, PrefixScan.applyScansWith,
      PrefixScan.applyChainWith, PrefixScan.blockScans, PrefixScan.blockScansAux,
      PrefixScan.targetPrefixes, PrefixScan.sourceScan, PrefixScan.sourceElems,
      PrefixScan.sourceSize, PrefixScan.actualWorkgroupLength, limitWorkgroupLength,
      cfgA, tplAdd, GPUBufferModel.size, PrefixScan.fitsInWorkGroup,
      WorkgroupScanStage.blockSums, WorkgroupScanStage.prefixScan,
      WorkgroupScanStage.blockLen, chunk, total, iscan, iscanFrom,
      PrefixScan.mkApplyStage, ApplyScanBlocksStage.resultLitFormula,
      ApplyScanBlocksStage.actualWorkgroupLength, applyGoLit]
  have h2 : iscan cfgA.template.combine cfgA.src.data = [1, 3, 6, 10] := by
    simp [cfgA, tplAdd, iscan, iscanFrom]
  rw [h1, h2]
  simp

/-- Witness for claim C1 (amended) at the concrete configuration `cfgA`:
four elements, block length 2, sum template. -/
theorem claim_C1_witness :
    ((2 ≤ PrefixScan.actualWorkgroupLength cfgA ∧
      PrefixScan.fitsInWorkGroup cfgA = false) ∧
     cfgA.src.bytesPerElement = 4) ∧
    PrefixScan.result cfgA = some (iscan cfgA.template.combine cfgA.src.data) :=
  ⟨⟨⟨by decide, by decide⟩, rfl⟩,
    claim_C1_amended cfgA (fun a b c => Nat.add_assoc a b c) rfl (by decide)
      (by decide) rfl rfl⟩

/-! ## Claim C2 -/

/-- Claim C2: exactly one stage output is the terminal result — the `result`
getter returns the source stage's `prefixScan` buffer when the source fits
in one workgroup, and otherwise the `result` buffer of the last Apply-Block
stage of the `applyScans` chain (which then exists). -/
theorem claim_C2 (cfg : PrefixScanConfig α)
    (hL : 2 ≤ PrefixScan.actualWorkgroupLength cfg) :
    (PrefixScan.fitsInWorkGroup cfg = true →
      PrefixScan.result cfg = some ((PrefixScan.sourceScan cfg).prefixScan)) ∧
    (PrefixScan.fitsInWorkGroup cfg = false →
      ∃ a, (PrefixScan.applyScans cfg).getLast? = some a ∧
        PrefixScan.result cfg = some a.result) := by
  constructor
  · intro hfits
    rw [PrefixScan.result, if_pos (by simp [hfits])]
  · intro hfits
    obtain ⟨a, ha⟩ := PrefixScan.getLast_exists_of_ne_nil _
      (PrefixScan.applyScans_ne_nil cfg hL hfits)
    refine ⟨a, ha, ?_⟩
    rw [PrefixScan.result, if_neg (by simp [hfits]), ha]
    rfl

/-- Witness for claim C2 at `cfgA` (a large configuration, so the apply
chain branch is the live one). -/
theorem claim_C2_witness :
    (2 ≤ PrefixScan.actualWorkgroupLength cfgA) ∧
    ((PrefixScan.fitsInWorkGroup cfgA = true →
      PrefixScan.result cfgA = some ((PrefixScan.sourceScan cfgA).prefixScan)) ∧
     (PrefixScan.fitsInWorkGroup cfgA = false →
      ∃ a, (PrefixScan.applyScans cfgA).getLast? = some a ∧
        PrefixScan.result cfgA = some a.result)) :=
  ⟨by decide, claim_C2 cfgA (by decide)⟩

/-! ## Claim C10 -/

/-- Claim C10: whenever the source does not fit in one workgroup, the
block-scan chain and hence the apply chain are nonempty, so the
`slice(-1)[0]` accesses inside `applyScans` and `result` always find an
element (stated for workgroup lengths of at least 2; for a length of 0 or 1
the source's `blockScans` loop never terminates, so the accesses are never
reached). -/
theorem claim_C10 (cfg : PrefixScanConfig α)
    (hL : 2 ≤ PrefixScan.actualWorkgroupLength cfg)
    (hfits : PrefixScan.fitsInWorkGroup cfg = false) :
    1 ≤ (PrefixScan.blockScans cfg).length ∧
    1 ≤ (PrefixScan.applyScans cfg).length := by
  constructor
  · exact List.length_pos.mpr (PrefixScan.blockScans_ne_nil cfg hL hfits)
  · exact List.length_pos.mpr (PrefixScan.applyScans_ne_nil cfg hL hfits)

/-- Witness for claim C10 at `cfgA`. -/
theorem claim_C10_witness :
    (2 ≤ PrefixScan.actualWorkgroupLength cfgA ∧
      PrefixScan.fitsInWorkGroup cfgA = false) ∧
    (1 ≤ (PrefixScan.blockScans cfgA).length ∧
      1 ≤ (PrefixScan.applyScans cfgA).length) :=
  ⟨⟨by decide, by decide⟩, claim_C10 cfgA (by decide) (by decide)⟩

/-! ## Claim C6 -/

/-- Claim C6 as stated is false: in the fits-in-one-workgroup case the
source stage is nevertheless built with `emitBlockSums = true` (source line
115 passes `emitBlockSums: true` unconditionally), while the claim demands
the flag be false. -/
theorem claim_C6_counterexample :
    PrefixScan.fitsInWorkGroup cfgC = true ∧
    (PrefixScan.sourceScan cfgC).emitBlockSums = true :=
  ⟨by decide, rfl⟩

/-- Claim C6 (amended): when the source fits in one workgroup, exactly one
Block Scan stage is built — its exclusive flag equals the caller's flag, no
block-sum chain stages and no Apply-Block stages are built — but its
`emitBlockSums` flag is true (the summaries are emitted even though nothing
consumes them), not false as the claim states. -/
theorem claim_C6_amended (cfg : PrefixScanConfig α)
    (hfits : PrefixScan.fitsInWorkGroup cfg = true) :
    (PrefixScan.sourceScan cfg).exclusiveSmall = cfg.exclusive ∧
    (PrefixScan.sourceScan cfg).emitBlockSums = true ∧
    PrefixScan.blockScans cfg = [] ∧
    PrefixScan.applyScans cfg = [] := by
  refine ⟨?_, rfl, ?_, ?_⟩
  · show (cfg.exclusive && PrefixScan.fitsInWorkGroup cfg) = cfg.exclusive
    rw [hfits, Bool.and_true]
  · rw [PrefixScan.blockScans]
    apply PrefixScan.blockScansAux_nil
    have hle := of_decide_eq_true hfits
    intro hcon
    omega
  · rw [PrefixScan.applyScans, PrefixScan.applyScansWith, if_pos (by simp [hfits])]

/-- Witness for claim C6 (amended) at the fitting configuration `cfgC`. -/
theorem claim_C6_witness :
    (PrefixScan.fitsInWorkGroup cfgC = true) ∧
    ((PrefixScan.sourceScan cfgC).exclusiveSmall = cfgC.exclusive ∧
     (PrefixScan.sourceScan cfgC).emitBlockSums = true ∧
     PrefixScan.blockScans cfgC = [] ∧
     PrefixScan.applyScans cfgC = []) :=
  ⟨by decide, claim_C6_amended cfgC (by decide)⟩

/-! ## Claim C7 -/

/-- Claim C7 as stated is false: a 32-byte source buffer holding four
8-byte elements under a template with `elementSize = 8`, on a device with
maximum workgroup length 4, fits per the claim's derivation
(32 / 8 = 4 ≤ 4) but the gate divides by the fixed four bytes of a u32
(32 / 4 = 8 > 4) and reports false. -/
theorem claim_C7_counterexample :
    PrefixScan.fitsInWorkGroup cfgWide = false ∧
    PrefixScan.fitsInWorkGroupSpecReading cfgWide = true :=
  ⟨by decide, by decide⟩

/-- Claim C7 (amended): `fitsInWorkGroup` is true exactly when the byte size
divided by the fixed 4-byte u32 width (`Uint32Array.BYTES_PER_ELEMENT`, not
the template's element size) is at most the requested workgroup length
clamped to the device maximum (the maximum being used when the request is
unset or zero); the claim's derivation by the template's element size
agrees only when that size is 4. -/
theorem claim_C7_amended (cfg : PrefixScanConfig α) :
    (PrefixScan.fitsInWorkGroup cfg = true ↔
      cfg.src.size / 4 ≤ (match cfg.workgroupLength with
        | none => cfg.deviceMax
        | some p => if p = 0 ∨ cfg.deviceMax < p then cfg.deviceMax else p)) ∧
    (cfg.template.elementSize = 4 →
      PrefixScan.fitsInWorkGroup cfg = PrefixScan.fitsInWorkGroupSpecReading cfg) := by
  constructor
  · simp only [PrefixScan.fitsInWorkGroup, decide_eq_true_eq, PrefixScan.sourceElems,
      PrefixScan.sourceSize, PrefixScan.actualWorkgroupLength, limitWorkgroupLength]
  · intro h4
    rw [PrefixScan.fitsInWorkGroupSpecReading, h4]
    rfl

/-- Witness for claim C7 (amended) at `cfgA`, whose template's element size
is 4. -/
theorem claim_C7_witness :
    ((PrefixScan.fitsInWorkGroup cfgA = true ↔
      cfgA.src.size / 4 ≤ (match cfgA.workgroupLength with
        | none => cfgA.deviceMax
        | some p => if p = 0 ∨ cfgA.deviceMax < p then cfgA.deviceMax else p)) ∧
     (cfgA.template.elementSize = 4 →
      PrefixScan.fitsInWorkGroup cfgA = PrefixScan.fitsInWorkGroupSpecReading cfgA)) :=
  claim_C7_amended cfgA

/-! ## Claim C3 -/

/-- Claim C3 as stated is false at `cfgB` (eight elements, block length 2,
`exclusive = true`, `initialValue = 7`): the caller's exclusive flag and
initial value are not threaded only into the top-level (coarsest) scan's
mapping — the coarsest block-scan stage receives neither (its exclusive
flag is false and its initial value absent), while the second Apply-Block
stage (a non-top level) does receive both. -/
theorem claim_C3_counterexample :
    ((PrefixScan.blockScans cfgB).getLast?).map
        (fun s => (s.exclusiveSmall, s.initialValue)) = some (false, none) ∧
    ((PrefixScan.applyScans cfgB)[1]?).map
        (fun a => (a.exclusiveLarge, a.initialValue)) = some (true, some 7) := by
  constructor
  · simp [PrefixScan.blockScans, PrefixScan.blockScansAux, PrefixScan.sourceScan,
      PrefixScan.sourceElems, PrefixScan.sourceSize, PrefixScan.actualWorkgroupLength,
      limitWorkgroupLength, cfgB, tplAdd, GPUBufferModel.size, PrefixScan.fitsInWorkGroup,
      WorkgroupScanStage.blockSums, WorkgroupScanStage.blockLen, chunk, total]
  · simp [PrefixScan.applyScans, PrefixScan.applyScansWith, PrefixScan.applyChainWith,
      PrefixScan.blockScans, PrefixScan.blockScansAux, PrefixScan.targetPrefixes,
      PrefixScan.sourceScan, PrefixScan.sourceElems, PrefixScan.sourceSize,
      PrefixScan.actualWorkgroupLength, limitWorkgroupLength, cfgB, tplAdd,
      GPUBufferModel.size, PrefixScan.fitsInWorkGroup, WorkgroupScanStage.blockSums,
      WorkgroupScanStage.prefixScan, WorkgroupScanStage.blockLen, chunk, total, iscan,
      iscanFrom, PrefixScan.mkApplyStage, ApplyScanBlocksStage.result,
      ApplyScanBlocksStage.actualWorkgroupLength, applyGo]

/-- Claim C3 (amended): when the source does not fit in one workgroup, the
source stage is built with `emitBlockSums = true` and exclusive flag false,
and every block-sum chain stage is inclusive with no initial value; but the
caller's exclusive flag and initial value are not threaded only into the
top-level scan — the source stage receives the initial value, every
Apply-Block stage receives both, and the coarsest block-scan stage receives
neither. -/
theorem claim_C3_amended (cfg : PrefixScanConfig α)
    (hfits : PrefixScan.fitsInWorkGroup cfg = false) :
    (PrefixScan.sourceScan cfg).emitBlockSums = true ∧
    (PrefixScan.sourceScan cfg).exclusiveSmall = false ∧
    (PrefixScan.sourceScan cfg).initialValue = cfg.initialValue ∧
    (∀ stg ∈ PrefixScan.blockScans cfg,
      stg.exclusiveSmall = false ∧ stg.initialValue = none) ∧
    (∀ a ∈ PrefixScan.applyScans cfg,
      a.exclusiveLarge = cfg.exclusive ∧ a.initialValue = cfg.initialValue) := by
  refine ⟨rfl, ?_, rfl, ?_, ?_⟩
  · show (cfg.exclusive && PrefixScan.fitsInWorkGroup cfg) = false
    rw [hfits, Bool.and_false]
  · intro stg hmem
    rw [PrefixScan.blockScans] at hmem
    exact PrefixScan.blockScansAux_mem_inclusive cfg _ _ stg hmem
  · intro a ha
    rw [PrefixScan.applyScans, PrefixScan.applyScansWith, if_neg (by simp [hfits])] at ha
    exact PrefixScan.applyChainWith_mem_params cfg _ _ _ a ha

/-! ## Claim C4 -/

/-- Claim C4: for every source element count and workgroup length of at
least 2, building the block-sum stage chain terminates (the embedding is a
total function); the chain stops at the first level whose element count is
at most the workgroup length — every earlier chain stage scans more than a
workgroup of elements and emits summaries, the last chain stage scans at
most a workgroup of elements and does not emit summaries — and for a source
of exactly blockLength cubed elements exactly 3 Block Scan stages (the
source stage plus 2 chain stages) and exactly 2 Apply-Block stages are
built. -/
theorem claim_C4 (cfg : PrefixScanConfig α)
    (hbp : cfg.src.bytesPerElement = 4)
    (hL : 2 ≤ PrefixScan.actualWorkgroupLength cfg) :
    (∀ stg ∈ (PrefixScan.blockScans cfg).dropLast,
      stg.emitBlockSums = true ∧
        PrefixScan.actualWorkgroupLength cfg < stg.source.length) ∧
    (∀ stg, (PrefixScan.blockScans cfg).getLast? = some stg →
      stg.emitBlockSums = false ∧
        stg.source.length ≤ PrefixScan.actualWorkgroupLength cfg) ∧
    (cfg.src.data.length = PrefixScan.actualWorkgroupLength cfg ^ 3 →
      1 + (PrefixScan.blockScans cfg).length = 3 ∧
      (PrefixScan.applyScans cfg).length = 2) := by
  have hN : PrefixScan.sourceElems cfg = cfg.src.data.length := by
    rw [PrefixScan.sourceElems, PrefixScan.sourceSize, GPUBufferModel.size, hbp]
    exact Nat.mul_div_cancel _ (by omega)
  have hlen0 : (PrefixScan.sourceScan cfg).blockSums.length =
      (PrefixScan.sourceElems cfg + PrefixScan.actualWorkgroupLength cfg - 1) /
        PrefixScan.actualWorkgroupLength cfg := by
    rw [blockSums_eq, List.length_map]
    rw [show (PrefixScan.sourceScan cfg).blockLen =
      PrefixScan.actualWorkgroupLength cfg from rfl]
    rw [show (PrefixScan.sourceScan cfg).source = cfg.src.data from rfl]
    rw [chunk_length _ (by omega), hN]
  refine ⟨?_, ?_, ?_⟩
  · intro stg hmem
    rw [PrefixScan.blockScans] at hmem
    exact PrefixScan.blockScansAux_dropLast_spec cfg hL
      (PrefixScan.actualWorkgroupLength cfg) _ (by omega) hlen0 stg hmem
  · intro stg hg
    rw [PrefixScan.blockScans] at hg
    exact PrefixScan.blockScansAux_getLast_spec cfg hL
      (PrefixScan.actualWorkgroupLength cfg) _ (by omega) hlen0 stg hg
  · intro hcube
    have hNc : PrefixScan.sourceElems cfg =
        PrefixScan.actualWorkgroupLength cfg ^ 3 := by rw [hN, hcube]
    have hL3 : PrefixScan.actualWorkgroupLength cfg ^ 3 =
        PrefixScan.actualWorkgroupLength cfg * PrefixScan.actualWorkgroupLength cfg *
          PrefixScan.actualWorkgroupLength cfg := by ring
    have hsq : 2 * PrefixScan.actualWorkgroupLength cfg ≤
        PrefixScan.actualWorkgroupLength cfg * PrefixScan.actualWorkgroupLength cfg := by
      rw [Nat.mul_comm 2 (PrefixScan.actualWorkgroupLength cfg)]
      exact Nat.mul_le_mul_left _ hL
    have hcub : 2 * (PrefixScan.actualWorkgroupLength cfg *
        PrefixScan.actualWorkgroupLength cfg) ≤
        PrefixScan.actualWorkgroupLength cfg * PrefixScan.actualWorkgroupLength cfg *
          PrefixScan.actualWorkgroupLength cfg := by
      calc 2 * (PrefixScan.actualWorkgroupLength cfg *
            PrefixScan.actualWorkgroupLength cfg)
          = (PrefixScan.actualWorkgroupLength cfg *
              PrefixScan.actualWorkgroupLength cfg) * 2 := Nat.mul_comm _ _
      _ ≤ (PrefixScan.actualWorkgroupLength cfg *
            PrefixScan.actualWorkgroupLength cfg) *
            PrefixScan.actualWorkgroupLength cfg := Nat.mul_le_mul_left _ hL
    have hg1 : PrefixScan.actualWorkgroupLength cfg < PrefixScan.sourceElems cfg := by
      rw [hNc, hL3]
      have h1 : PrefixScan.actualWorkgroupLength cfg <
          2 * PrefixScan.actualWorkgroupLength cfg := by omega
      have h2 : 2 * PrefixScan.actualWorkgroupLength cfg ≤
          2 * (PrefixScan.actualWorkgroupLength cfg *
            PrefixScan.actualWorkgroupLength cfg) := by
        apply Nat.mul_le_mul_left
        calc PrefixScan.actualWorkgroupLength cfg
            = PrefixScan.actualWorkgroupLength cfg * 1 := (Nat.mul_one _).symm
        _ ≤ PrefixScan.actualWorkgroupLength cfg *
              PrefixScan.actualWorkgroupLength cfg := Nat.mul_le_mul_left _ (by omega)
      omega
    have hg2 : PrefixScan.actualWorkgroupLength cfg *
        PrefixScan.actualWorkgroupLength cfg < PrefixScan.sourceElems cfg := by
      rw [hNc, hL3]
      have h1 : PrefixScan.actualWorkgroupLength cfg *
          PrefixScan.actualWorkgroupLength cfg <
          2 * (PrefixScan.actualWorkgroupLength cfg *
            PrefixScan.actualWorkgroupLength cfg) := by
        have hppos : 0 < PrefixScan.actualWorkgroupLength cfg *
            PrefixScan.actualWorkgroupLength cfg :=
          Nat.mul_pos (by omega) (by omega)
        omega
      omega
    have hfits : PrefixScan.fitsInWorkGroup cfg = false :=
      decide_eq_false (by omega)
    have hlen2 : (PrefixScan.blockScans cfg).length = 2 := by
      rw [PrefixScan.blockScans]
      rw [PrefixScan.blockScansAux_cons cfg _ (PrefixScan.actualWorkgroupLength cfg)
        ⟨hg1, hL, by omega⟩]
      rw [PrefixScan.blockScansAux_cons cfg _
        (PrefixScan.actualWorkgroupLength cfg * PrefixScan.actualWorkgroupLength cfg)
        ⟨hg2, hL, Nat.mul_pos (by omega) (by omega)⟩]
      rw [PrefixScan.blockScansAux_nil cfg _
        (PrefixScan.actualWorkgroupLength cfg * PrefixScan.actualWorkgroupLength cfg *
          PrefixScan.actualWorkgroupLength cfg)
        (fun hcon => absurd hcon.1 (by rw [hNc, hL3]; exact Nat.lt_irrefl _))]
      rfl
    refine ⟨by omega, ?_⟩
    rw [PrefixScan.applyScans, PrefixScan.applyScansWith, if_neg (by simp [hfits]),
      PrefixScan.applyChainWith_length, List.length_zip, List.length_reverse,
      PrefixScan.targetPrefixes_length cfg (by omega), hlen2, Nat.min_self]

/-- Witness for claim C4 at `cfgB`, whose eight elements are exactly the
cube of its workgroup length 2. -/
theorem claim_C4_witness :
    (cfgB.src.bytesPerElement = 4 ∧ 2 ≤ PrefixScan.actualWorkgroupLength cfgB) ∧
    ((∀ stg ∈ (PrefixScan.blockScans cfgB).dropLast,
      stg.emitBlockSums = true ∧
        PrefixScan.actualWorkgroupLength cfgB < stg.source.length) ∧
     (∀ stg, (PrefixScan.blockScans cfgB).getLast? = some stg →
      stg.emitBlockSums = false ∧
        stg.source.length ≤ PrefixScan.actualWorkgroupLength cfgB) ∧
     (cfgB.src.data.length = PrefixScan.actualWorkgroupLength cfgB ^ 3 →
      1 + (PrefixScan.blockScans cfgB).length = 3 ∧
      (PrefixScan.applyScans cfgB).length = 2)) :=
  ⟨⟨rfl, by decide⟩, claim_C4 cfgB rfl (by decide)⟩

/-! ## Claim C5 -/

/-- Claim C5: `commands` encodes the stages in strict dependency order —
first the source block scan, then the chain stages bottom to top, then the
apply stages top to bottom — and every Apply-Block stage's two input buffers
(its `partialScan` and its `blockSums`) are outputs of stages encoded
strictly earlier in the sequence. -/
theorem claim_C5 (cfg : PrefixScanConfig α)
    (hL : 2 ≤ PrefixScan.actualWorkgroupLength cfg) :
    PrefixScan.shadersList cfg =
      PrefixScan.ShaderNode.block (PrefixScan.sourceScan cfg) ::
        ((PrefixScan.blockScans cfg).map PrefixScan.ShaderNode.block ++
         (PrefixScan.applyScans cfg).map PrefixScan.ShaderNode.applyB) ∧
    ∀ i a, (PrefixScan.applyScans cfg)[i]? = some a →
      (∃ j, j < 1 + (PrefixScan.blockScans cfg).length + i ∧
        ∃ nd, (PrefixScan.shadersList cfg)[j]? = some nd ∧
          a.partialScan ∈ nd.outputs) ∧
      (∃ j, j < 1 + (PrefixScan.blockScans cfg).length + i ∧
        ∃ nd, (PrefixScan.shadersList cfg)[j]? = some nd ∧
          a.blockSums ∈ nd.outputs) := by
  refine ⟨rfl, ?_⟩
  intro i a ha
  by_cases hfitsT : PrefixScan.fitsInWorkGroup cfg = true
  · rw [PrefixScan.applyScans, PrefixScan.applyScansWith,
      if_pos (by simp [hfitsT])] at ha
    simp at ha
  · have hfits : PrefixScan.fitsInWorkGroup cfg = false := by
      revert hfitsT
      cases PrefixScan.fitsInWorkGroup cfg <;> simp
    have hC : PrefixScan.blockScans cfg ≠ [] :=
      PrefixScan.blockScans_ne_nil cfg hL hfits
    have hm : 1 ≤ (PrefixScan.blockScans cfg).length := List.length_pos.mpr hC
    have hTlen : (PrefixScan.targetPrefixes cfg).length =
        (PrefixScan.blockScans cfg).length := PrefixScan.targetPrefixes_length cfg hm
    have hALen : (PrefixScan.applyScans cfg).length =
        (PrefixScan.blockScans cfg).length := by
      rw [PrefixScan.applyScans, PrefixScan.applyScansWith, if_neg (by simp [hfits]),
        PrefixScan.applyChainWith_length, List.length_zip, List.length_reverse,
        hTlen, Nat.min_self]
    rw [PrefixScan.applyScans, PrefixScan.applyScansWith,
      if_neg (by simp [hfits])] at ha
    obtain ⟨⟨pr, hpr, hps⟩, hbs⟩ := PrefixScan.applyChainWith_getElemQ cfg _ _ _ i a ha
    have hi : i < (PrefixScan.blockScans cfg).length := by
      by_contra hcon
      push_neg at hcon
      rw [List.getElem?_eq_none (by
        rw [List.length_zip, List.length_reverse, hTlen, Nat.min_self]
        omega)] at hpr
      exact Option.noConfusion hpr
    obtain ⟨hA, hB⟩ := PrefixScan.zip_getElemQ _ _ i pr hpr
    constructor
    · by_cases hilast : i + 1 < (PrefixScan.blockScans cfg).length
      · have ht := PrefixScan.targetPrefixes_get_lt cfg i hilast
        rw [hB] at ht
        cases hstg : (PrefixScan.blockScans cfg)[(PrefixScan.blockScans cfg).length
            - 2 - i]? with
        | none => rw [hstg] at ht; simp at ht
        | some stg =>
          rw [hstg] at ht
          simp only [Option.map_some'] at ht
          have hpr2 := Option.some.inj ht
          refine ⟨(PrefixScan.blockScans cfg).length - 2 - i + 1, by omega,
            PrefixScan.ShaderNode.block stg, ?_, ?_⟩
          · rw [PrefixScan.shadersList_get_block cfg _ (by omega), hstg]
            rfl
          · rw [hps, hpr2, PrefixScan.ShaderNode.outputs]
            exact List.mem_cons_self _ _
      · have hieq : i = (PrefixScan.blockScans cfg).length - 1 := by omega
        have ht := PrefixScan.targetPrefixes_get_last cfg hm
        rw [← hieq, hB] at ht
        have hpr2 := Option.some.inj ht
        refine ⟨0, by omega, PrefixScan.ShaderNode.block (PrefixScan.sourceScan cfg),
          PrefixScan.shadersList_get_zero cfg, ?_⟩
        rw [hps, hpr2, PrefixScan.ShaderNode.outputs]
        exact List.mem_cons_self _ _
    · rcases hbs with ⟨hi0, hbs0⟩ | ⟨i', a', hi', hga, hres⟩
      · subst hi0
        obtain ⟨stgL, hstgL⟩ := PrefixScan.getLast_exists_of_ne_nil _ hC
        have hinit : a.blockSums = stgL.prefixScan := by
          rw [hbs0, hstgL]
          rfl
        refine ⟨(PrefixScan.blockScans cfg).length - 1 + 1, by omega,
          PrefixScan.ShaderNode.block stgL, ?_, ?_⟩
        · rw [PrefixScan.shadersList_get_block cfg _ (by omega)]
          rw [show (PrefixScan.blockScans cfg)[(PrefixScan.blockScans cfg).length
              - 1]? = (PrefixScan.blockScans cfg).getLast? from
            (List.getLast?_eq_getElem? _).symm, hstgL]
          rfl
        · rw [hinit, PrefixScan.ShaderNode.outputs]
          exact List.mem_cons_self _ _
      · refine ⟨(PrefixScan.blockScans cfg).length + i' + 1, by omega,
          PrefixScan.ShaderNode.applyB a', ?_, ?_⟩
        · rw [PrefixScan.shadersList_get_apply cfg i']
          rw [PrefixScan.applyScans, PrefixScan.applyScansWith,
            if_neg (by simp [hfits]), hga]
          rfl
        · rw [hres, PrefixScan.ShaderNode.outputs]
          exact List.mem_cons_self _ _

/-- Witness for claim C5 at `cfgA`. -/
theorem claim_C5_witness :
    (2 ≤ PrefixScan.actualWorkgroupLength cfgA) ∧
    (PrefixScan.shadersList cfgA =
      PrefixScan.ShaderNode.block (PrefixScan.sourceScan cfgA) ::
        ((PrefixScan.blockScans cfgA).map PrefixScan.ShaderNode.block ++
         (PrefixScan.applyScans cfgA).map PrefixScan.ShaderNode.applyB) ∧
     ∀ i a, (PrefixScan.applyScans cfgA)[i]? = some a →
      (∃ j, j < 1 + (PrefixScan.blockScans cfgA).length + i ∧
        ∃ nd, (PrefixScan.shadersList cfgA)[j]? = some nd ∧
          a.partialScan ∈ nd.outputs) ∧
      (∃ j, j < 1 + (PrefixScan.blockScans cfgA).length + i ∧
        ∃ nd, (PrefixScan.shadersList cfgA)[j]? = some nd ∧
          a.blockSums ∈ nd.outputs)) :=
  ⟨by decide, claim_C5 cfgA (by decide)⟩

/-! ## Claim C8 -/

/-- Claim C8: for a fixed source buffer and workgroup length, changing only
`initialValue` or `exclusive` leaves the block-sum stage chain entirely
unchanged (number of levels, sources and `emitBlockSums` flags included),
and in the large case the source stage's two outputs are also unchanged:
only the top-level treatment and the Apply-Block stages can differ. -/
theorem claim_C8 (cfg : PrefixScanConfig α) (eb : Bool) (v' : Option α)
    (hbp : cfg.src.bytesPerElement = 4)
    (hL : 2 ≤ PrefixScan.actualWorkgroupLength cfg) :
    PrefixScan.blockScans { cfg with exclusive := eb, initialValue := v' } =
      PrefixScan.blockScans cfg ∧
    (PrefixScan.sourceScan { cfg with exclusive := eb, initialValue := v' }).blockSums =
      (PrefixScan.sourceScan cfg).blockSums ∧
    (PrefixScan.fitsInWorkGroup cfg = false →
      (PrefixScan.sourceScan
          { cfg with exclusive := eb, initialValue := v' }).prefixScan =
        (PrefixScan.sourceScan cfg).prefixScan) := by
  refine ⟨?_, rfl, ?_⟩
  · rw [PrefixScan.blockScans, PrefixScan.blockScans]
    exact PrefixScan.blockScansAux_param_congr cfg eb v'
      (PrefixScan.actualWorkgroupLength cfg) _
  · intro hfits
    have hN : PrefixScan.sourceElems cfg = cfg.src.data.length := by
      rw [PrefixScan.sourceElems, PrefixScan.sourceSize, GPUBufferModel.size, hbp]
      exact Nat.mul_div_cancel _ (by omega)
    have hlt : PrefixScan.actualWorkgroupLength cfg < PrefixScan.sourceElems cfg := by
      have := of_decide_eq_false hfits
      omega
    have hchunk : 2 ≤ (chunk (PrefixScan.actualWorkgroupLength cfg)
        cfg.src.data).length := by
      by_contra hcon
      push_neg at hcon
      rw [chunk_length _ (by omega)] at hcon
      have := (ceilDiv_le_iff cfg.src.data.length 1
        (PrefixScan.actualWorkgroupLength cfg) (by omega)).mp (by omega)
      omega
    rw [prefixScan_multi (PrefixScan.sourceScan cfg)
      (by show (cfg.exclusive && PrefixScan.fitsInWorkGroup cfg) = false
          rw [hfits, Bool.and_false])
      hchunk]
    rw [prefixScan_multi
      (PrefixScan.sourceScan { cfg with exclusive := eb, initialValue := v' })
      (by show (eb && PrefixScan.fitsInWorkGroup
            { cfg with exclusive := eb, initialValue := v' }) = false
          rw [show PrefixScan.fitsInWorkGroup
            { cfg with exclusive := eb, initialValue := v' } =
            PrefixScan.fitsInWorkGroup cfg from rfl, hfits, Bool.and_false])
      hchunk]
    rfl

/-- Witness for claim C8 at `cfgB`, switching its exclusive flag off and
dropping its initial value. -/
theorem claim_C8_witness :
    (cfgB.src.bytesPerElement = 4 ∧ 2 ≤ PrefixScan.actualWorkgroupLength cfgB) ∧
    (PrefixScan.blockScans { cfgB with exclusive := false, initialValue := none } =
      PrefixScan.blockScans cfgB ∧
     (PrefixScan.sourceScan
        { cfgB with exclusive := false, initialValue := none }).blockSums =
      (PrefixScan.sourceScan cfgB).blockSums ∧
     (PrefixScan.fitsInWorkGroup cfgB = false →
      (PrefixScan.sourceScan
          { cfgB with exclusive := false, initialValue := none }).prefixScan =
        (PrefixScan.sourceScan cfgB).prefixScan)) :=
  ⟨⟨rfl, by decide⟩, claim_C8 cfgB false none rfl (by decide)⟩

/-! ## Claim C9 -/

/-- Claim C9 as stated is false: with a requested block length of 0 the
construction does not fail — the zero is silently replaced by the device
maximum and the scan of `[1, 2, 3]` completes with `[1, 3, 6]` — and with a
0-element source a stage is still invoked: the encoded shader list has
length 1 (the source Block Scan stage), not zero. -/
theorem claim_C9_counterexample :
    PrefixScan.result (mkPrefixScan argsZeroLen) = some [1, 3, 6] ∧
    (PrefixScan.shadersList cfgEmpty).length = 1 := by
  constructor
  · simp [PrefixScan.result, PrefixScan.sourceScan, PrefixScan.sourceElems,
      PrefixScan.sourceSize, PrefixScan.actualWorkgroupLength, limitWorkgroupLength,
      mkPrefixScan, argsZeroLen, tplAdd, GPUBufferModel.size, PrefixScan.fitsInWorkGroup,
      WorkgroupScanStage.prefixScan, WorkgroupScanStage.blockLen, chunk, iscan, iscanFrom]
  · simp [PrefixScan.shadersList, PrefixScan.blockScans, PrefixScan.blockScansAux,
      PrefixScan.applyScans, PrefixScan.applyScansWith, PrefixScan.sourceScan,
      PrefixScan.sourceElems, PrefixScan.sourceSize, PrefixScan.actualWorkgroupLength,
      limitWorkgroupLength, cfgEmpty, tplAdd, GPUBufferModel.size,
      PrefixScan.fitsInWorkGroup, WorkgroupScanStage.blockSums,
      WorkgroupScanStage.blockLen, chunk, total]

/-- Claim C9 (amended): stage construction performs no validation and cannot
fail — a requested block length of 0 ("falsy") is replaced by the device
maximum; and for a source of 0 elements the single-stage path is taken, the
source stage is still built and encoded (the shader list has exactly one
entry), and the returned result is the empty sequence only because the
result buffer is empty. -/
theorem claim_C9_amended (cfg cfg₂ : PrefixScanConfig α) :
    (cfg.src.data = [] →
      (PrefixScan.shadersList cfg).length = 1 ∧ PrefixScan.result cfg = some []) ∧
    (cfg₂.workgroupLength = some 0 →
      PrefixScan.actualWorkgroupLength cfg₂ = cfg₂.deviceMax) := by
  constructor
  · intro hempty
    have hN : PrefixScan.sourceElems cfg = 0 := by
      rw [PrefixScan.sourceElems, PrefixScan.sourceSize, GPUBufferModel.size, hempty]
      simp
    have hfits : PrefixScan.fitsInWorkGroup cfg = true :=
      decide_eq_true (by omega)
    have hbchain : PrefixScan.blockScans cfg = [] := by
      rw [PrefixScan.blockScans]
      apply PrefixScan.blockScansAux_nil
      intro hcon
      omega
    have happly : PrefixScan.applyScans cfg = [] := by
      rw [PrefixScan.applyScans, PrefixScan.applyScansWith, if_pos (by simp [hfits])]
    constructor
    · rw [PrefixScan.shadersList, hbchain, happly]
      rfl
    · rw [PrefixScan.result, if_pos (by simp [hfits]),
        prefixScan_nil_source (PrefixScan.sourceScan cfg) hempty]
  · intro h0
    rw [PrefixScan.actualWorkgroupLength, h0]
    simp [limitWorkgroupLength]

/-- Witness for claim C9 (amended) at the 0-element configuration
`cfgEmpty` and the zero-block-length construction `mkPrefixScan argsZeroLen`. -/
theorem claim_C9_witness :
    ((PrefixScan.shadersList cfgEmpty).length = 1 ∧
      PrefixScan.result cfgEmpty = some []) ∧
    PrefixScan.actualWorkgroupLength (mkPrefixScan argsZeroLen) =
      (mkPrefixScan argsZeroLen).deviceMax :=
  ⟨(claim_C9_amended cfgEmpty (mkPrefixScan argsZeroLen)).1 rfl,
   (claim_C9_amended cfgEmpty (mkPrefixScan argsZeroLen)).2 rfl⟩

/-- Witness for claim C3 (amended) at `cfgB`. -/
theorem claim_C3_witness :
    (PrefixScan.fitsInWorkGroup cfgB = false) ∧
    ((PrefixScan.sourceScan cfgB).emitBlockSums = true ∧
     (PrefixScan.sourceScan cfgB).exclusiveSmall = false ∧
     (PrefixScan.sourceScan cfgB).initialValue = cfgB.initialValue ∧
     (∀ stg ∈ PrefixScan.blockScans cfgB,
       stg.exclusiveSmall = false ∧ stg.initialValue = none) ∧
     (∀ a ∈ PrefixScan.applyScans cfgB,
       a.exclusiveLarge = cfgB.exclusive ∧ a.initialValue = cfgB.initialValue)) :=
  ⟨by decide, claim_C3_amended cfgB (by decide)⟩

end Stoneberry
